import Mathlib

/-!
Verification development for the endless-runner game
(`src/unnamed/part_000`, canvas implementation).

Shallow embedding conventions:
* JS `number` values are modelled by exact rationals `ℚ`
  (the simulation core performs only +, -, *, /, comparisons,
  `Math.floor`, `Math.trunc`, `Math.max`/`Math.min`).
* `Math.random()` draws are modelled by explicit oracle inputs:
  values in `[0, 1)` packaged in the `U01` subtype, bundled per
  generation step in `ChunkDraws` and supplied as a stream.
* Transcendental calls (`Math.sin` in the coin-arc layout,
  the square root inside `Math.hypot` in the coin magnet) are
  modelled as oracle function parameters; no verified claim
  depends on their values.
* Rendering, audio, particles, screen-shake and the `JUICE`
  visual state are cosmetic outputs with no feedback into the
  simulated fields and are elided.
-/

namespace Runner

/-- `const clamp = (v, a, b) => (v < a ? a : v > b ? b : v);` -/
def clamp (v a b : ℚ) : ℚ := if v < a then a else if v > b then b else v

/-- World-space rectangle `{x, y, w, h}`, `rect(x, y, w, h)` in the source. -/
structure Rect where
  x : ℚ
  y : ℚ
  w : ℚ
  h : ℚ
deriving DecidableEq, Repr

/-- `centerx(r) = r.x + r.w / 2` -/
def centerx (r : Rect) : ℚ := r.x + r.w / 2

/-- `centery(r) = r.y + r.h / 2` -/
def centery (r : Rect) : ℚ := r.y + r.h / 2

/-- `colliderect(a, b)`: strict axis-aligned overlap test. -/
def colliderect (a b : Rect) : Bool :=
  decide (a.x < b.x + b.w) && decide (a.x + a.w > b.x) &&
  decide (a.y < b.y + b.h) && decide (a.y + a.h > b.y)

/-- Result record of `collideVerticalSweep`: the mutated player rectangle
together with the returned `{pyFloat, landed, bumped}`. -/
structure SweepResult where
  player : Rect
  pyFloat : ℚ
  landed : Bool
  bumped : Bool
deriving DecidableEq, Repr

/-- The `for (let s = 0; s < steps; s++)` body of `collideVerticalSweep`,
counting the remaining iterations.  Each iteration advances `pyFloat` by
`step`, floors it into `player.y`, and scans the platform list in order:
moving down (`step > 0`) it looks for a platform whose top was at-or-below
the previous bottom, moving up for a platform whose bottom was at-or-above
the previous top. -/
def sweepLoop (platforms : List Rect) (step : ℚ) :
    Nat → Rect → ℚ → SweepResult
  | 0, player, pyFloat => ⟨player, pyFloat, false, false⟩
  | Nat.succ n, player, pyFloat =>
    let prevTop := player.y
    let prevBottom := player.y + player.h
    let pyFloat' := pyFloat + step
    let player' := { player with y := ((⌊pyFloat'⌋ : ℤ) : ℚ) }
    if 0 < step then
      match platforms.find? (fun p =>
          colliderect player' p && decide (prevBottom ≤ p.y)) with
      | some p => ⟨{ player' with y := p.y - player'.h }, p.y - player'.h, true, false⟩
      | none => sweepLoop platforms step n player' pyFloat'
    else
      match platforms.find? (fun p =>
          colliderect player' p && decide (prevTop ≥ p.y + p.h)) with
      | some p => ⟨{ player' with y := p.y + p.h }, p.y + p.h, false, true⟩
      | none => sweepLoop platforms step n player' pyFloat'

/-- `collideVerticalSweep(player, pyFloat, dy, platforms)`:
`steps = Math.floor(Math.abs(dy) / 6) + 1`, `step = dy / steps`. -/
def collideVerticalSweep (player : Rect) (pyFloat dy : ℚ)
    (platforms : List Rect) : SweepResult :=
  if dy = 0 then ⟨player, pyFloat, false, false⟩
  else
    let steps : Nat := (⌊|dy| / 6⌋).toNat + 1
    let step := dy / steps
    sweepLoop platforms step steps player pyFloat

/-! Game constants from `part_000` (0.55 = 11/20, 0.10 = 1/10, 0.12 = 3/25,
0.60 = 3/5, 0.70 = 7/10, 0.52 = 13/25, 0.62 = 31/50). -/

def GAME_W : ℚ := 960
def GAME_H : ℚ := 540
def WIDTH : ℚ := GAME_W
def HEIGHT : ℚ := GAME_H
def GROUND_H : ℚ := 80
def GROUND_Y : ℚ := HEIGHT - GROUND_H
def JUMP_CUT_MULT : ℚ := 11/20
def BASE_SPEED : ℚ := 320
def MAX_SPEED : ℚ := 820
def SPEED_RAMP : ℚ := 7
def GRAVITY : ℚ := 2100
def BASE_JUMP_V : ℚ := 880
def MAX_FALL_V : ℚ := 1500
def BASE_COYOTE : ℚ := 1/10
def BASE_JUMP_BUF : ℚ := 3/25
def MIN_GAP : ℚ := 150
def MAX_GAP : ℚ := 340
def PLATFORM_MIN_W : ℚ := 160
def PLATFORM_MAX_W : ℚ := 380
def PLATFORM_MIN_H : ℚ := 18
def PLATFORM_MAX_H : ℚ := 28
def HEIGHT_LEVELS : List ℚ := [0, 70, 120, 170]
def MIN_REACTION_T : ℚ := 3/5
def MAX_REACTION_T : ℚ := 1
def MIN_HAZARD_SEP_T : ℚ := 7/10
def HAZARD_CHANCE : ℚ := 13/25
def COIN_CHANCE : ℚ := 31/50

/-- A `Math.random()` draw: a rational in `[0, 1)`. -/
def U01 : Type := { u : ℚ // 0 ≤ u ∧ u < 1 }

/-- `randi(a, b) = a + Math.floor(Math.random() * (b - a + 1))`,
with the ambient `Math.random()` made an explicit argument. -/
def randi (a b : ℤ) (u : U01) : ℤ := a + ⌊u.val * ((b : ℚ) - (a : ℚ) + 1)⌋

/-- The oracle inputs consumed by one `spawnChunk` call: one `U01` value per
(potential) `Math.random()` / `randi` call, in source order, plus `arcOff i n`
standing for the transcendental `Math.floor(18 * Math.sin((i / Math.max(1, n - 1)) * Math.PI))`
used for the sine-arc coin layout. -/
structure ChunkDraws where
  wU : U01
  hU : U01
  lvlU : U01
  hazU : U01
  hzWU : U01
  hzHU : U01
  hxU : U01
  coinU : U01
  nU : U01
  baseXU : U01
  arcU : U01
  gapU : U01
  arcOff : ℕ → ℕ → ℤ

/-- The per-run mutable state `RUN` built by `newRunState()`.  The cosmetic
fields (`particles`, `shake_t`, `shake_mag`) have no feedback into the
simulation and are elided. -/
structure RunState where
  cam_x : ℚ
  speed : ℚ
  score : ℤ
  score_f : ℚ
  coins_run : ℕ
  player : Rect
  py : ℚ
  vy : ℚ
  on_ground : Bool
  coyote : ℚ
  jump_buf : ℚ
  jump_v : ℚ
  coyote_t : ℚ
  coin_mul : ℚ
  magnet_px : ℚ
  platforms : List Rect
  hazards : List Rect
  coins_list : List Rect
  next_spawn_x : ℚ
  last_platform_top : ℚ
  last_hazard_x : ℚ
  jump_cut : Bool
  jump_time : ℚ
deriving DecidableEq

/-- The hazard-placement block of `spawnChunk` (the body guarded by
`Math.random() < hazChance`).  Returns the spike rectangle pushed onto
`RUN.hazards` together with the new `RUN.last_hazard_x`; note the source
records `last_hazard_x` *before* clamping `hx` into the platform's bounds. -/
def hazardSpawn (camX speed x lastHazardX : ℚ) (platform : Rect)
    (d : ChunkDraws) : Option Rect × ℚ :=
  let hazChance := if speed > 650 then HAZARD_CHANCE * (39/50) else HAZARD_CHANCE
  if d.hazU.val < hazChance then
    let hzW := randi 30 68 d.hzWU
    let hzH := randi 32 62 d.hzHU
    let reactionPxMin : ℤ := ⌊speed * MIN_REACTION_T⌋
    let reactionPxMax : ℤ := ⌊speed * MAX_REACTION_T⌋
    let hx0 : ℚ := (randi ⌊x - (reactionPxMax : ℚ)⌋ ⌊x - (reactionPxMin : ℚ)⌋ d.hxU : ℤ)
    let hx1 : ℚ := max ((⌊camX + WIDTH + 70⌋ : ℤ) : ℚ) hx0
    let minSepPx : ℤ := ⌊speed * MIN_HAZARD_SEP_T⌋
    let hx2 : ℚ := if hx1 - lastHazardX < (minSepPx : ℚ) then lastHazardX + (minSepPx : ℚ) else hx1
    let hx3 : ℚ := clamp hx2 platform.x (platform.x + platform.w - (hzW : ℚ))
    let spikeBottom := platform.y + 2
    (some ⟨((⌊hx3⌋ : ℤ) : ℚ), ((⌊spikeBottom - (hzH : ℚ)⌋ : ℤ) : ℚ), (hzW : ℚ), (hzH : ℚ)⟩, hx2)
  else (none, lastHazardX)

/-- The coin-cluster block of `spawnChunk` (guarded by
`Math.random() < COIN_CHANCE`): 3–7 coins, 34 px apart, flat row or
sine-arc (the arc offset comes from the `arcOff` oracle). -/
def coinSpawn (platform : Rect) (d : ChunkDraws) : List Rect :=
  if d.coinU.val < COIN_CHANCE then
    let n := randi 3 7 d.nU
    let baseX : ℚ := platform.x + (randi 20 (max 20 (⌊platform.w⌋ - 20)) d.baseXU : ℤ)
    let baseY : ℚ := platform.y - 54
    let arc := d.arcU.val < 11/20
    (List.range n.toNat).map (fun (i : ℕ) =>
      let cx : ℚ := baseX + (i : ℚ) * 34
      let cy : ℚ := if arc then baseY - ((d.arcOff i n.toNat : ℤ) : ℚ) else baseY
      ⟨((⌊cx⌋ : ℤ) : ℚ), ((⌊cy⌋ : ℤ) : ℚ), 18, 18⟩)
  else []

/-- `spawnChunk()`: appends one platform (width/height and height level drawn
from the oracle, level biased toward the previous platform's level, vertical
step clamped), optionally one hazard and one coin cluster, then advances
`next_spawn_x` by the platform width plus a random gap. -/
def spawnChunk (d : ChunkDraws) (s : RunState) : RunState :=
  let camX := s.cam_x
  let speed := s.speed
  let x := s.next_spawn_x
  let w := randi 160 380 d.wU
  let h := randi 18 28 d.hU
  let prevTop := s.last_platform_top
  let base : ℚ := GROUND_Y - 24
  let prevLevel := HEIGHT_LEVELS.foldl
    (fun best lvl => if |(base - lvl) - prevTop| < |(base - best) - prevTop| then lvl else best)
    (HEIGHT_LEVELS.getD 0 0)
  let extra : ℕ := if speed > 520 then 3 else 2
  let candidates := HEIGHT_LEVELS ++ List.replicate extra prevLevel
  let lvl := candidates.getD (randi 0 ((candidates.length : ℤ) - 1) d.lvlU).toNat 0
  let topY0 : ℚ := base - lvl
  let maxStep : ℚ := if speed < 520 then 170 else 125
  let topY : ℚ :=
    if |topY0 - prevTop| > maxStep then
      (if topY0 > prevTop then prevTop + maxStep else prevTop - maxStep)
    else topY0
  let platform : Rect := ⟨((⌊x⌋ : ℤ) : ℚ), ((⌊topY⌋ : ℤ) : ℚ), (w : ℚ), (h : ℚ)⟩
  let haz := hazardSpawn camX speed x s.last_hazard_x platform d
  let coins := coinSpawn platform d
  let gap := randi 150 340 d.gapU
  { s with
    platforms := s.platforms ++ [platform]
    hazards := s.hazards ++ (haz.1.map (fun hz => [hz])).getD []
    last_hazard_x := haz.2
    coins_list := s.coins_list ++ coins
    next_spawn_x := platform.x + platform.w + (gap : ℚ)
    last_platform_top := platform.y }

/-- The `while (RUN.next_spawn_x < camX + WIDTH * 2.2) spawnChunk();` loop of
`ensureGenerationAhead`, encoded with an iteration bound (`fuel`).
`ensureGenerationAhead_horizon` shows the bound used below never
cuts the loop short, i.e. the loop exits only through its guard. -/
def genLoop (stream : ℕ → ChunkDraws) (camX : ℚ) :
    ℕ → ℕ → RunState → RunState
  | 0, _, s => s
  | Nat.succ fuel, k, s =>
    if s.next_spawn_x < camX + WIDTH * (11/5) then
      genLoop stream camX fuel (k + 1) (spawnChunk (stream k) s)
    else s

/-- `ensureGenerationAhead()`: the iteration bound
`⌈camX + WIDTH * 2.2 - next_spawn_x⌉⁺` suffices because every `spawnChunk`
advances the frontier by more than 309 > 1 pixels. -/
def ensureGenerationAhead (stream : ℕ → ChunkDraws) (s : RunState) : RunState :=
  genLoop stream s.cam_x (⌈s.cam_x + WIDTH * (11/5) - s.next_spawn_x⌉).toNat 0 s

/-- `cleanupLists()`: drop platforms/hazards/coins whose trailing edge has
scrolled more than 280 px behind the camera. -/
def cleanupLists (s : RunState) : RunState :=
  let keep := fun (r : Rect) => decide (r.x + r.w ≥ s.cam_x - 280)
  { s with
    platforms := s.platforms.filter keep
    hazards := s.hazards.filter keep
    coins_list := s.coins_list.filter keep }

/-- `newRunState()`: the per-run state as created at run start, with the
upgrade-derived parameters (`runParamsFromUpgrades()`) passed in explicitly.
A starter platform spans `x ∈ [0, WIDTH + 1200]` at `GROUND_Y - 24`. -/
def newRunState (jumpV coyoteT coinMul magnetPx : ℚ) : RunState :=
  let starter : Rect := ⟨0, GROUND_Y - 24, WIDTH + 1200, 24⟩
  { cam_x := 0, speed := BASE_SPEED, score := 0, score_f := 0, coins_run := 0,
    player := ⟨160, GROUND_Y - 58, 44, 58⟩, py := GROUND_Y - 58, vy := 0,
    on_ground := true, coyote := 0, jump_buf := 0,
    jump_v := jumpV, coyote_t := coyoteT, coin_mul := coinMul,
    magnet_px := magnetPx,
    platforms := [starter], hazards := [], coins_list := [],
    next_spawn_x := starter.x + starter.w + 140,
    last_platform_top := starter.y,
    last_hazard_x := -10000000,
    jump_cut := false, jump_time := 0 }

/-- The per-tick input edge flags passed to `playUpdate`
(`jumpHeld` is accepted but never read by `playUpdate`, as in the source). -/
structure Inputs where
  jumpPressed : Bool
  jumpHeld : Bool
  jumpReleased : Bool
deriving DecidableEq, Repr

/-- Persistent save data touched by the simulation (`SAVE.money`,
`SAVE.best_score`); the cosmetics/upgrade/settings tables are external. -/
structure SaveData where
  money : ℤ
  best_score : ℤ
deriving DecidableEq, Repr

/-- The UI mode constants `MODE_MENU` … `MODE_DEAD`. -/
inductive Mode where
  | menu
  | play
  | shop
  | settings
  | dead
deriving DecidableEq, Repr

/-- Global game state: mode, pause flag, save data, and the run state. -/
structure GameState where
  mode : Mode
  paused : Bool
  save : SaveData
  run : RunState
deriving DecidableEq

/-- `Math.trunc`: truncation toward zero. -/
def jsTrunc (q : ℚ) : ℤ := if 0 ≤ q then ⌊q⌋ else ⌈q⌉

/-- `playUpdate` lines 1177–1180: speed ramp and score accrual
(`0.02 = 1/50`).  The accompanying `updateBestScore(false)` call is applied
to the save data inside `playUpdate` itself. -/
def rampScorePhase (dt : ℚ) (s : RunState) : RunState :=
  let speed := clamp (s.speed + SPEED_RAMP * dt) BASE_SPEED MAX_SPEED
  let score_f := s.score_f + speed * dt * (1/50)
  { s with speed := speed, score_f := score_f, score := ⌊score_f⌋ }

/-- `playUpdate` lines 1182–1183: jump buffering. -/
def bufferPhase (dt : ℚ) (inp : Inputs) (s : RunState) : RunState :=
  if inp.jumpPressed then { s with jump_buf := BASE_JUMP_BUF }
  else { s with jump_buf := max 0 (s.jump_buf - dt) }

/-- `playUpdate` lines 1185–1190: coyote refresh / decay; being grounded
also clears the jump-cut flag. -/
def coyotePhase (dt : ℚ) (s : RunState) : RunState :=
  if s.on_ground then { s with coyote := s.coyote_t, jump_cut := false }
  else { s with coyote := max 0 (s.coyote - dt) }

/-- `playUpdate` lines 1192–1193: air-time accounting. -/
def jumpTimePhase (dt : ℚ) (s : RunState) : RunState :=
  if !s.on_ground then { s with jump_time := s.jump_time + dt }
  else { s with jump_time := 0 }

/-- `playUpdate` lines 1196–1206: buffered-jump execution.  Fires iff
`jump_buf > 0 && coyote > 0`; sets `vy = -jump_v`, leaves the ground,
zeroes both timers, clears the jump-cut flag and the air timer. -/
def jumpPhase (s : RunState) : RunState :=
  if 0 < s.jump_buf ∧ 0 < s.coyote then
    { s with vy := -s.jump_v, on_ground := false, coyote := 0, jump_buf := 0,
             jump_cut := false, jump_time := 0 }
  else s

/-- `playUpdate` line 1208: unconditional gravity integration. -/
def gravityPhase (dt : ℚ) (s : RunState) : RunState :=
  { s with vy := clamp (s.vy + GRAVITY * dt) (-5000) MAX_FALL_V }

/-- `playUpdate` lines 1211–1214: variable-height jump cut, gated by the
`jump_cut` flag so it applies at most once per airborne arc. -/
def cutPhase (released : Bool) (s : RunState) : RunState :=
  if released ∧ s.on_ground = false ∧ s.jump_cut = false ∧ s.vy < 0 then
    { s with vy := s.vy * JUMP_CUT_MULT, jump_cut := true }
  else s

/-- `playUpdate` lines 1217–1250: pin `player.x` to the camera, run the
vertical sweep for `vy * dt`, then resolve the hard ground line (which only
catches downward motion, `vy > 0`) or a platform landing. -/
def movePhase (dt : ℚ) (s : RunState) : RunState :=
  let player0 := { s.player with x := ((⌊s.cam_x + 160⌋ : ℤ) : ℚ) }
  let dy := s.vy * dt
  let sweep := collideVerticalSweep player0 s.py dy s.platforms
  let player1 := sweep.player
  if player1.y + player1.h ≥ GROUND_Y then
    if 0 < s.vy then
      { s with player := { player1 with y := GROUND_Y - player1.h },
               py := GROUND_Y - player1.h, vy := 0, on_ground := true }
    else
      { s with player := player1, py := sweep.pyFloat, on_ground := false }
  else if sweep.landed then
    { s with player := player1, py := sweep.pyFloat, vy := 0, on_ground := true }
  else
    { s with player := player1, py := sweep.pyFloat, on_ground := false }

/-- `playUpdate` line 1252: advance the camera. -/
def camPhase (dt : ℚ) (s : RunState) : RunState :=
  { s with cam_x := s.cam_x + s.speed * dt }

/-- `playUpdate` lines 1257–1269: magnet pull.  `sqrtF` is the oracle for
the square root inside `Math.hypot`; `2.8 = 14/5`, `0.1 = 1/10`. -/
def magnetPhase (dt : ℚ) (sqrtF : ℚ → ℚ) (s : RunState) : RunState :=
  if 0 < s.magnet_px then
    { s with coins_list := s.coins_list.map (fun c =>
        let dx := centerx s.player - centerx c
        let dyc := centery s.player - centery c
        let dist := sqrtF (dx * dx + dyc * dyc)
        if 1/10 < dist ∧ dist < s.magnet_px then
          let pull := (s.magnet_px - dist) / s.magnet_px
          { c with x := c.x + ((jsTrunc (dx * pull * dt * (14/5)) : ℤ) : ℚ),
                   y := c.y + ((jsTrunc (dyc * pull * dt * (14/5)) : ℤ) : ℚ) }
        else c) }
  else s

/-- `playUpdate` lines 1272–1290: coin collection.  The source gathers the
indices of overlapping coins into a set and filters by index; since the
membership test for index `i` is exactly `colliderect(player, coins[i])`,
this equals filtering by the overlap predicate itself. -/
def coinPhase (s : RunState) : RunState :=
  let hit := s.coins_list.filter (fun c => colliderect s.player c)
  { s with coins_run := s.coins_run + hit.length,
           coins_list := s.coins_list.filter (fun c => !colliderect s.player c) }

/-- The run state as it stands at the hazard-overlap test of `playUpdate`
(line 1293): all phases of the tick applied in source order. -/
def preHazardState (dt : ℚ) (inp : Inputs) (stream : ℕ → ChunkDraws)
    (sqrtF : ℚ → ℚ) (g : GameState) : RunState :=
  coinPhase (magnetPhase dt sqrtF (cleanupLists (ensureGenerationAhead stream
    (camPhase dt (movePhase dt (cutPhase inp.jumpReleased (gravityPhase dt
      (jumpPhase (jumpTimePhase dt (coyotePhase dt (bufferPhase dt inp
        (rampScorePhase dt g.run))))))))))))

/-- `playUpdate(dt, jumpPressed, jumpHeld, jumpReleased)` on the whole game
state.  `updateBestScore(false)` runs right after the score accrual; since no
later phase of the tick writes `score`, applying it with the end-of-tick
`score` value is identical.  On a hazard overlap (first overlapping hazard in
list order, line 1293) the source calls `awardMoneyAndSave()`
(`SAVE.money += Math.floor(coins_run * coin_mul)`,
`SAVE.best_score = max(best, score)`) then `updateBestScore(true)` and
switches to `MODE_DEAD`, returning early; the skipped tail (particles, shake,
juice decay) is cosmetic. -/
def deathResolve (g : GameState) (r : RunState) : GameState :=
  let save1 := { g.save with best_score := max g.save.best_score r.score }
  match r.hazards.find? (fun hz => colliderect r.player hz) with
  | some _ =>
    let save2 := { save1 with
      money := save1.money + ⌊(r.coins_run : ℚ) * r.coin_mul⌋
      best_score := max save1.best_score r.score }
    let save3 := { save2 with best_score := max save2.best_score r.score }
    { mode := Mode.dead, paused := g.paused, save := save3, run := r }
  | none => { mode := g.mode, paused := g.paused, save := save1, run := r }

/-- `playUpdate(dt, jumpPressed, jumpHeld, jumpReleased)`: all tick phases in
source order, then the hazard-overlap death resolution. -/
def playUpdate (dt : ℚ) (inp : Inputs) (stream : ℕ → ChunkDraws)
    (sqrtF : ℚ → ℚ) (g : GameState) : GameState :=
  deathResolve g (preHazardState dt inp stream sqrtF g)

/-- The gameplay dispatch of the main loop (lines 1461–1473): the simulation
advances only in `MODE_PLAY` while unpaused; every other mode only draws UI
(its state changes only through explicit user actions such as the
"Play again" reset button, which are not part of a tick). -/
def frameGameStep (dt : ℚ) (inp : Inputs) (stream : ℕ → ChunkDraws)
    (sqrtF : ℚ → ℚ) (g : GameState) : GameState :=
  if g.mode = Mode.play ∧ g.paused = false then playUpdate dt inp stream sqrtF g
  else g

/-- An all-zero oracle bundle (every `Math.random()` returns 0, the arc
offset oracle returns 0), used to instantiate theorems on concrete inputs. -/
def zeroDraws : ChunkDraws :=
  ⟨⟨0, by norm_num⟩, ⟨0, by norm_num⟩, ⟨0, by norm_num⟩, ⟨0, by norm_num⟩,
   ⟨0, by norm_num⟩, ⟨0, by norm_num⟩, ⟨0, by norm_num⟩, ⟨0, by norm_num⟩,
   ⟨0, by norm_num⟩, ⟨0, by norm_num⟩, ⟨0, by norm_num⟩, ⟨0, by norm_num⟩,
   fun _ _ => 0⟩

/-- A concrete mid-air run state touching a spike: the fresh run state with a
1.5× coin multiplier, 3 coins collected, the player floated at `y = 300`
overlapping the single hazard, no platforms, and the frontier already past
the horizon. -/
def deathWitnessRun : RunState :=
  { newRunState 880 (1/10) (3/2) 0 with
    on_ground := false, player := ⟨160, 300, 44, 58⟩, py := 300,
    coins_run := 3, hazards := [⟨150, 310, 30, 32⟩], platforms := [],
    next_spawn_x := 5000 }

/-- A play-mode game over `deathWitnessRun` with 10 money and best score
100 saved. -/
def deathWitnessGame : GameState :=
  ⟨Mode.play, false, ⟨10, 100⟩, deathWitnessRun⟩

/-! ## Basic facts about the oracle draws and the generator step -/

/-- `randi(a, b)` is at least `a` whenever `b + 1 ≥ a`. -/
theorem randi_ge (a b : ℤ) (u : U01) (h : (a : ℚ) ≤ (b : ℚ) + 1) :
    a ≤ randi a b u := by
  have h0 : (0 : ℚ) ≤ u.val * ((b : ℚ) - (a : ℚ) + 1) :=
    mul_nonneg u.property.1 (by linarith)
  have h1 : (0 : ℤ) ≤ ⌊u.val * ((b : ℚ) - (a : ℚ) + 1)⌋ := Int.floor_nonneg.mpr h0
  simp only [randi]
  omega

/-- `randi(a, b)` is at most `b` whenever `a ≤ b`. -/
theorem randi_le (a b : ℤ) (u : U01) (h : a ≤ b) : randi a b u ≤ b := by
  have hab : (a : ℚ) ≤ (b : ℚ) := by exact_mod_cast h
  have hpos : (0 : ℚ) < (b : ℚ) - (a : ℚ) + 1 := by linarith
  have h1 : u.val * ((b : ℚ) - (a : ℚ) + 1) < (b : ℚ) - (a : ℚ) + 1 := by
    nlinarith [u.property.1, u.property.2]
  have h2 : ⌊u.val * ((b : ℚ) - (a : ℚ) + 1)⌋ < b - a + 1 := by
    apply Int.floor_lt.mpr
    push_cast
    linarith
  simp only [randi]
  omega

/-- One `spawnChunk` advances the frontier to
`Math.floor(next_spawn_x) + w + gap ≥ Math.floor(next_spawn_x) + 310`, hence
strictly past `next_spawn_x + 309`. -/
theorem spawnChunk_next_spawn_gt (d : ChunkDraws) (s : RunState) :
    s.next_spawn_x + 309 < (spawnChunk d s).next_spawn_x := by
  have hw : (160 : ℤ) ≤ randi 160 380 d.wU := randi_ge _ _ _ (by norm_num)
  have hg : (150 : ℤ) ≤ randi 150 340 d.gapU := randi_ge _ _ _ (by norm_num)
  have hfl : s.next_spawn_x - 1 < ((⌊s.next_spawn_x⌋ : ℤ) : ℚ) := by
    exact_mod_cast Int.sub_one_lt_floor s.next_spawn_x
  have hw' : (160 : ℚ) ≤ ((randi 160 380 d.wU : ℤ) : ℚ) := by exact_mod_cast hw
  have hg' : (150 : ℚ) ≤ ((randi 150 340 d.gapU : ℤ) : ℚ) := by exact_mod_cast hg
  show s.next_spawn_x + 309 <
      ((⌊s.next_spawn_x⌋ : ℤ) : ℚ) + ((randi 160 380 d.wU : ℤ) : ℚ) +
        ((randi 150 340 d.gapU : ℤ) : ℚ)
  linarith

/-! ## Directional helper lemmas for the vertical sweep -/

/-- A downward sweep (`step > 0`) can only land, never bump. -/
theorem sweepLoop_pos_bumped (platforms : List Rect) (step : ℚ)
    (hstep : 0 < step) : ∀ (n : ℕ) (player : Rect) (py : ℚ),
    (sweepLoop platforms step n player py).bumped = false := by
  intro n
  induction n with
  | zero => intro player py; rfl
  | succ n ih =>
    intro player py
    simp only [sweepLoop]
    rw [if_pos hstep]
    split
    · rfl
    · exact ih _ _

/-- A non-downward sweep (`¬ step > 0`) can only bump, never land. -/
theorem sweepLoop_nonpos_landed (platforms : List Rect) (step : ℚ)
    (hstep : ¬ 0 < step) : ∀ (n : ℕ) (player : Rect) (py : ℚ),
    (sweepLoop platforms step n player py).landed = false := by
  intro n
  induction n with
  | zero => intro player py; rfl
  | succ n ih =>
    intro player py
    simp only [sweepLoop]
    rw [if_neg hstep]
    split
    · rfl
    · exact ih _ _

/-- C10: the flags returned by `collideVerticalSweep` are mutually exclusive
and direction-consistent: `landed` and `bumped` are never both true, `landed`
requires a downward displacement (`dy > 0`), `bumped` requires an upward one
(`dy < 0`), and a zero displacement returns the input `pyFloat` unchanged with
both flags false. -/
theorem collideVerticalSweep_flags (player : Rect) (pyFloat dy : ℚ)
    (platforms : List Rect) :
    ¬((collideVerticalSweep player pyFloat dy platforms).landed = true ∧
      (collideVerticalSweep player pyFloat dy platforms).bumped = true) ∧
    ((collideVerticalSweep player pyFloat dy platforms).landed = true → 0 < dy) ∧
    ((collideVerticalSweep player pyFloat dy platforms).bumped = true → dy < 0) ∧
    (dy = 0 → collideVerticalSweep player pyFloat dy platforms =
      ⟨player, pyFloat, false, false⟩) := by
  by_cases hdy : dy = 0
  · subst hdy
    refine ⟨?_, ?_, ?_, fun _ => rfl⟩ <;>
      simp [collideVerticalSweep]
  · have hsteps : (0 : ℚ) < ((⌊|dy| / 6⌋.toNat + 1 : ℕ) : ℚ) := by positivity
    have hstepiff : 0 < dy / ((⌊|dy| / 6⌋.toNat + 1 : ℕ) : ℚ) ↔ 0 < dy :=
      div_pos_iff_of_pos_right hsteps
    simp only [collideVerticalSweep, if_neg hdy]
    rcases lt_or_gt_of_ne hdy with hneg | hpos
    · have hnp : ¬ 0 < dy / ((⌊|dy| / 6⌋.toNat + 1 : ℕ) : ℚ) := by
        rw [hstepiff]; exact not_lt.mpr hneg.le
      have hl := sweepLoop_nonpos_landed platforms _ hnp
        (⌊|dy| / 6⌋.toNat + 1) player pyFloat
      refine ⟨?_, ?_, fun _ => hneg, fun h => absurd h hdy⟩
      · rintro ⟨h1, _⟩; rw [hl] at h1; exact Bool.false_ne_true h1
      · intro h1; rw [hl] at h1; exact absurd h1 Bool.false_ne_true
    · have hp : 0 < dy / ((⌊|dy| / 6⌋.toNat + 1 : ℕ) : ℚ) := hstepiff.mpr hpos
      have hb := sweepLoop_pos_bumped platforms _ hp
        (⌊|dy| / 6⌋.toNat + 1) player pyFloat
      refine ⟨?_, fun _ => hpos, ?_, fun h => absurd h hdy⟩
      · rintro ⟨_, h2⟩; rw [hb] at h2; exact Bool.false_ne_true h2
      · intro h2; rw [hb] at h2; exact absurd h2 Bool.false_ne_true

/-- Witness for C10, instantiated at a zero displacement. -/
theorem collideVerticalSweep_flags_witness :
    collideVerticalSweep ⟨160, 402, 44, 58⟩ 402 0 [⟨0, 436, 2160, 24⟩] =
      ⟨⟨160, 402, 44, 58⟩, 402, false, false⟩ :=
  (collideVerticalSweep_flags ⟨160, 402, 44, 58⟩ 402 0 [⟨0, 436, 2160, 24⟩]).2.2.2 rfl

/-- If the player's bottom starts strictly below the top of every platform,
a downward sweep catches nothing: every sub-step fails the
`prevBottom <= p.y` test, so the loop runs to completion applying the full
displacement. -/
theorem sweepLoop_below_all (platforms : List Rect) (step : ℚ) (hstep : 0 < step) :
    ∀ (n : ℕ) (player : Rect) (py : ℚ),
      player.y = ((⌊py⌋ : ℤ) : ℚ) →
      (∀ p ∈ platforms, p.y < player.y + player.h) →
      sweepLoop platforms step n player py =
        ⟨{ player with y := ((⌊py + (n : ℚ) * step⌋ : ℤ) : ℚ) }, py + (n : ℚ) * step,
          false, false⟩ := by
  intro n
  induction n with
  | zero =>
    intro player py hy hall
    simp only [sweepLoop, Nat.cast_zero, zero_mul, add_zero]
    rw [show ((⌊py⌋ : ℤ) : ℚ) = player.y from hy.symm]
  | succ n ih =>
    intro player py hy hall
    simp only [sweepLoop]
    rw [if_pos hstep]
    have hfind : platforms.find? (fun p =>
        colliderect { player with y := ((⌊py + step⌋ : ℤ) : ℚ) } p &&
          decide (player.y + player.h ≤ p.y)) = none := by
      apply List.find?_eq_none.mpr
      intro p hp
      simp only [Bool.and_eq_true, decide_eq_true_eq, not_and]
      intro _
      exact not_le.mpr (hall p hp)
    rw [hfind]
    have hmono : player.y ≤ ((⌊py + step⌋ : ℤ) : ℚ) := by
      rw [hy]
      exact_mod_cast Int.floor_le_floor (by linarith : py ≤ py + step)
    have hall' : ∀ p ∈ platforms,
        p.y < ({ player with y := ((⌊py + step⌋ : ℤ) : ℚ) } : Rect).y +
          ({ player with y := ((⌊py + step⌋ : ℤ) : ℚ) } : Rect).h := by
      intro p hp
      have := hall p hp
      simp only []
      linarith
    rw [ih { player with y := ((⌊py + step⌋ : ℤ) : ℚ) } (py + step) rfl hall']
    have harith : py + step + (n : ℚ) * step = py + ((n : ℚ) + 1) * step := by ring
    simp only [Nat.cast_succ, harith]

/-- C2: for a downward displacement `dy > 0`, if the player's bottom edge is
already strictly below the top edge of every platform in the list before the
call (in particular below `P.y` for the platform `P` of interest), the sweep
never snaps onto any of them in any sub-step: the full displacement is
applied and `landed = bumped = false` — the one-way platform can be passed
from underneath or from inside. -/
theorem sweep_one_way_fall_through (player : Rect) (pyFloat dy : ℚ)
    (platforms : List Rect)
    (hy : player.y = ((⌊pyFloat⌋ : ℤ) : ℚ))
    (hdy : 0 < dy)
    (hbelow : ∀ p ∈ platforms, p.y < player.y + player.h) :
    collideVerticalSweep player pyFloat dy platforms =
      ⟨{ player with y := ((⌊pyFloat + dy⌋ : ℤ) : ℚ) }, pyFloat + dy, false, false⟩ := by
  have hne : dy ≠ 0 := ne_of_gt hdy
  simp only [collideVerticalSweep, if_neg hne]
  have hNpos : (0 : ℚ) < ((⌊|dy| / 6⌋.toNat + 1 : ℕ) : ℚ) := by positivity
  have hstep : 0 < dy / ((⌊|dy| / 6⌋.toNat + 1 : ℕ) : ℚ) := div_pos hdy hNpos
  rw [sweepLoop_below_all platforms _ hstep (⌊|dy| / 6⌋.toNat + 1) player pyFloat hy hbelow]
  rw [mul_div_cancel₀ dy (ne_of_gt hNpos)]

/-- Witness for C2: a player whose bottom (498) is already below the platform
top (436) falls through freely by the full 5 px. -/
theorem sweep_one_way_fall_through_witness :
    collideVerticalSweep ⟨160, 440, 44, 58⟩ 440 5 [⟨0, 436, 2160, 24⟩] =
      ⟨⟨160, 445, 44, 58⟩, 445, false, false⟩ := by
  have h := sweep_one_way_fall_through ⟨160, 440, 44, 58⟩ 440 5 [⟨0, 436, 2160, 24⟩]
    (by norm_num) (by norm_num)
    (by intro p hp; rw [List.mem_singleton] at hp; subst hp; norm_num)
  norm_num at h
  exact h

/-- If the player's floored bottom at the *end* of a downward sweep still does
not strictly pass any platform top, no sub-step can trigger a landing (floored
positions grow monotonically along the sweep), so the full displacement is
applied. -/
theorem sweepLoop_no_cross (platforms : List Rect) (step : ℚ) (hstep : 0 < step) :
    ∀ (n : ℕ) (player : Rect) (py : ℚ),
      player.y = ((⌊py⌋ : ℤ) : ℚ) →
      (∀ p ∈ platforms, ((⌊py + (n : ℚ) * step⌋ : ℤ) : ℚ) + player.h ≤ p.y) →
      sweepLoop platforms step n player py =
        ⟨{ player with y := ((⌊py + (n : ℚ) * step⌋ : ℤ) : ℚ) }, py + (n : ℚ) * step,
          false, false⟩ := by
  intro n
  induction n with
  | zero =>
    intro player py hy _
    simp only [sweepLoop, Nat.cast_zero, zero_mul, add_zero]
    rw [show ((⌊py⌋ : ℤ) : ℚ) = player.y from hy.symm]
  | succ n ih =>
    intro player py hy hall
    have hfin : ∀ p ∈ platforms,
        ((⌊py + step + (n : ℚ) * step⌋ : ℤ) : ℚ) + player.h ≤ p.y := by
      intro p hp
      have := hall p hp
      have harith : py + step + (n : ℚ) * step = py + ((n : ℚ) + 1) * step := by ring
      rw [harith]
      simpa [Nat.cast_succ] using this
    have hmid : ((⌊py + step⌋ : ℤ) : ℚ) ≤ ((⌊py + step + (n : ℚ) * step⌋ : ℤ) : ℚ) := by
      have : py + step ≤ py + step + (n : ℚ) * step := by
        have : (0 : ℚ) ≤ (n : ℚ) * step := by positivity
        linarith
      exact_mod_cast Int.floor_le_floor this
    simp only [sweepLoop]
    rw [if_pos hstep]
    have hfind : platforms.find? (fun p =>
        colliderect { player with y := ((⌊py + step⌋ : ℤ) : ℚ) } p &&
          decide (player.y + player.h ≤ p.y)) = none := by
      apply List.find?_eq_none.mpr
      intro p hp
      have h1 := hfin p hp
      simp only [colliderect, Bool.and_eq_true, decide_eq_true_eq, not_and]
      rintro ⟨⟨_, _⟩, h4⟩
      exact absurd h4 (not_lt.mpr (by linarith))
    rw [hfind]
    rw [ih { player with y := ((⌊py + step⌋ : ℤ) : ℚ) } (py + step) rfl hfin]
    have harith : py + step + (n : ℚ) * step = py + ((n : ℚ) + 1) * step := by ring
    simp only [Nat.cast_succ, harith]

/-- `collideVerticalSweep` wrapper of `sweepLoop_no_cross`: a downward sweep
whose floored final bottom does not strictly pass any platform top applies the
full displacement with both flags false. -/
theorem sweep_no_catch (player : Rect) (pyFloat dy : ℚ) (platforms : List Rect)
    (hy : player.y = ((⌊pyFloat⌋ : ℤ) : ℚ))
    (hdy : 0 < dy)
    (hfin : ∀ p ∈ platforms, ((⌊pyFloat + dy⌋ : ℤ) : ℚ) + player.h ≤ p.y) :
    collideVerticalSweep player pyFloat dy platforms =
      ⟨{ player with y := ((⌊pyFloat + dy⌋ : ℤ) : ℚ) }, pyFloat + dy, false, false⟩ := by
  have hne : dy ≠ 0 := ne_of_gt hdy
  simp only [collideVerticalSweep, if_neg hne]
  have hNpos : (0 : ℚ) < ((⌊|dy| / 6⌋.toNat + 1 : ℕ) : ℚ) := by positivity
  have hstep : 0 < dy / ((⌊|dy| / 6⌋.toNat + 1 : ℕ) : ℚ) := div_pos hdy hNpos
  have hcancel : ((⌊|dy| / 6⌋.toNat + 1 : ℕ) : ℚ) *
      (dy / ((⌊|dy| / 6⌋.toNat + 1 : ℕ) : ℚ)) = dy :=
    mul_div_cancel₀ dy (ne_of_gt hNpos)
  rw [sweepLoop_no_cross platforms _ hstep (⌊|dy| / 6⌋.toNat + 1) player pyFloat hy
    (by rw [hcancel]; exact hfin)]
  rw [hcancel]

/-- Landing lemma for the sweep loop over a single platform: starting with the
player's bottom at-or-above `P.y` and with the floored bottom strictly past
`P.y` after all remaining steps, the loop lands exactly on `P`'s top.
`step < 6` (guaranteed by the sub-step construction) together with
`6 < player.h + P.h` rules out tunnelling past the platform in one step. -/
theorem sweepLoop_lands (P : Rect) (step : ℚ)
    (hstep0 : 0 < step) (hstep6 : step < 6) :
    ∀ (n : ℕ) (player : Rect) (py : ℚ),
      player.y = ((⌊py⌋ : ℤ) : ℚ) →
      player.x < P.x + P.w →
      player.x + player.w > P.x →
      6 < player.h + P.h →
      player.y + player.h ≤ P.y →
      P.y < ((⌊py + (n : ℚ) * step⌋ : ℤ) : ℚ) + player.h →
      sweepLoop [P] step n player py =
        ⟨{ player with y := P.y - player.h }, P.y - player.h, true, false⟩ := by
  intro n
  induction n with
  | zero =>
    intro player py hy _ _ _ hprev hcross
    rw [hy] at hprev
    simp only [Nat.cast_zero, zero_mul, add_zero] at hcross
    linarith
  | succ n ih =>
    intro player py hy hx1 hx2 hh hprev hcross
    have hmid6 : ((⌊py + step⌋ : ℤ) : ℚ) ≤ ((⌊py⌋ : ℤ) : ℚ) + 6 := by
      have h1 : ⌊py + step⌋ ≤ ⌊py + (6 : ℤ)⌋ :=
        Int.floor_le_floor (by push_cast; linarith)
      rw [Int.floor_add_int] at h1
      exact_mod_cast h1
    simp only [sweepLoop]
    rw [if_pos hstep0]
    by_cases hc : P.y < ((⌊py + step⌋ : ℤ) : ℚ) + player.h
    · -- this sub-step crosses the top: the platform is found and we snap
      have hpred : (colliderect { player with y := ((⌊py + step⌋ : ℤ) : ℚ) } P &&
          decide (player.y + player.h ≤ P.y)) = true := by
        simp only [colliderect, Bool.and_eq_true, decide_eq_true_eq]
        refine ⟨⟨⟨⟨hx1, hx2⟩, ?_⟩, ?_⟩, hprev⟩
        · show ((⌊py + step⌋ : ℤ) : ℚ) < P.y + P.h
          rw [hy] at hprev
          linarith
        · show ((⌊py + step⌋ : ℤ) : ℚ) + player.h > P.y
          exact hc
      rw [List.find?_singleton, if_pos hpred]
    · -- not yet crossed: this sub-step finds nothing, recurse
      push_neg at hc
      have hnpred : ¬((colliderect { player with y := ((⌊py + step⌋ : ℤ) : ℚ) } P &&
          decide (player.y + player.h ≤ P.y)) = true) := by
        simp only [colliderect, Bool.and_eq_true, decide_eq_true_eq]
        rintro ⟨⟨⟨⟨_, _⟩, _⟩, h4⟩, _⟩
        exact absurd h4 (not_lt.mpr hc)
      rw [List.find?_singleton, if_neg hnpred]
      have hcross' : P.y < ((⌊py + step + (n : ℚ) * step⌋ : ℤ) : ℚ) +
          ({ player with y := ((⌊py + step⌋ : ℤ) : ℚ) } : Rect).h := by
        have harith : py + step + (n : ℚ) * step = py + ((n : ℚ) + 1) * step := by ring
        rw [harith]
        simpa [Nat.cast_succ] using hcross
      exact ih { player with y := ((⌊py + step⌋ : ℤ) : ℚ) } (py + step) rfl hx1 hx2 hh hc hcross'

/-- C1 (amended): for a one-platform list, a downward displacement whose
*floored* end position strictly passes `P`'s top while the bottom started
at-or-above it lands exactly on `P.y` with `landed = true` and no overshoot. -/
theorem sweep_land_exact (player : Rect) (pyFloat dy : ℚ) (P : Rect)
    (hy : player.y = ((⌊pyFloat⌋ : ℤ) : ℚ))
    (hdy : 0 < dy)
    (hx1 : player.x < P.x + P.w)
    (hx2 : player.x + player.w > P.x)
    (hh : 6 < player.h + P.h)
    (hprev : player.y + player.h ≤ P.y)
    (hnew : P.y < ((⌊pyFloat + dy⌋ : ℤ) : ℚ) + player.h) :
    collideVerticalSweep player pyFloat dy [P] =
      ⟨{ player with y := P.y - player.h }, P.y - player.h, true, false⟩ := by
  have hne : dy ≠ 0 := ne_of_gt hdy
  simp only [collideVerticalSweep, if_neg hne]
  have habs : |dy| = dy := abs_of_pos hdy
  have hNpos : (0 : ℚ) < ((⌊|dy| / 6⌋.toNat + 1 : ℕ) : ℚ) := by positivity
  have hstep0 : 0 < dy / ((⌊|dy| / 6⌋.toNat + 1 : ℕ) : ℚ) := div_pos hdy hNpos
  have hfl0 : (0 : ℤ) ≤ ⌊|dy| / 6⌋ := Int.floor_nonneg.mpr (by positivity)
  have hN : ((⌊|dy| / 6⌋.toNat + 1 : ℕ) : ℚ) = ((⌊|dy| / 6⌋ : ℤ) : ℚ) + 1 := by
    have h1 : ((⌊|dy| / 6⌋.toNat : ℤ) : ℚ) = ((⌊|dy| / 6⌋ : ℤ) : ℚ) := by
      exact_mod_cast Int.toNat_of_nonneg hfl0
    push_cast at h1 ⊢
    linarith
  have hstep6 : dy / ((⌊|dy| / 6⌋.toNat + 1 : ℕ) : ℚ) < 6 := by
    rw [div_lt_iff₀ hNpos, hN]
    have h1 : dy / 6 - 1 < ((⌊dy / 6⌋ : ℤ) : ℚ) := by
      exact_mod_cast Int.sub_one_lt_floor (dy / 6)
    rw [habs]
    nlinarith
  have hcancel : ((⌊|dy| / 6⌋.toNat + 1 : ℕ) : ℚ) *
      (dy / ((⌊|dy| / 6⌋.toNat + 1 : ℕ) : ℚ)) = dy :=
    mul_div_cancel₀ dy (ne_of_gt hNpos)
  exact sweepLoop_lands P _ hstep0 hstep6 (⌊|dy| / 6⌋.toNat + 1) player pyFloat hy
    hx1 hx2 hh hprev (by rw [hcancel]; exact hnew)

/-- C1 counterexample: the claim's premisses hold with the new bottom landing
*exactly at* `P.y` (`new bottom ≥ P.y` with equality), yet the sweep reports
`landed = false`: the overlap test `player.y + player.h > p.y` is strict, so a
displacement that only touches the top edge is not caught.  Player
`{x 0, y 36, w 44, h 58}` (bottom 94) falls `dy = 6` onto platform
`{x 0, y 100, w 100, h 20}`: new bottom `36 + 6 + 58 = 100 = P.y`. -/
theorem sweep_land_boundary_cex :
    (0 : ℚ) < 6 ∧
    (⟨0, 36, 44, 58⟩ : Rect).x < (⟨0, 100, 100, 20⟩ : Rect).x + (⟨0, 100, 100, 20⟩ : Rect).w ∧
    (⟨0, 36, 44, 58⟩ : Rect).x + (⟨0, 36, 44, 58⟩ : Rect).w > (⟨0, 100, 100, 20⟩ : Rect).x ∧
    (⟨0, 36, 44, 58⟩ : Rect).y + (⟨0, 36, 44, 58⟩ : Rect).h ≤ (⟨0, 100, 100, 20⟩ : Rect).y ∧
    (⟨0, 100, 100, 20⟩ : Rect).y ≤ (36 : ℚ) + 6 + (⟨0, 36, 44, 58⟩ : Rect).h ∧
    (collideVerticalSweep ⟨0, 36, 44, 58⟩ 36 6 [⟨0, 100, 100, 20⟩]).landed = false := by
  refine ⟨by norm_num, by norm_num, by norm_num, by norm_num, by norm_num, ?_⟩
  have h := sweep_no_catch ⟨0, 36, 44, 58⟩ 36 6 [⟨0, 100, 100, 20⟩]
    (by norm_num) (by norm_num)
    (by intro p hp; rw [List.mem_singleton] at hp; subst hp; norm_num)
  rw [h]

/-- Witness for the amended C1: falling `dy = 7` from bottom 94 onto the top
(100) of `{x 0, y 100, w 100, h 20}` snaps the bottom exactly to 100
(`player.y = 42`) with `landed = true`, no overshoot. -/
theorem sweep_land_exact_witness :
    collideVerticalSweep ⟨0, 36, 44, 58⟩ 36 7 [⟨0, 100, 100, 20⟩] =
      ⟨⟨0, 42, 44, 58⟩, 42, true, false⟩ := by
  have h := sweep_land_exact ⟨0, 36, 44, 58⟩ 36 7 ⟨0, 100, 100, 20⟩
    (by norm_num) (by norm_num) (by norm_num) (by norm_num) (by norm_num)
    (by norm_num) (by norm_num)
  norm_num at h
  exact h

/-! ## Speed ramp (C7) -/

/-- For arguments already at or above the lower bound, `clamp` is a `min`. -/
theorem clamp_eq_min (v a b : ℚ) (h : a ≤ v) : clamp v a b = min b v := by
  simp only [clamp, if_neg (not_lt.mpr h)]
  rcases lt_or_le b v with h1 | h1
  · rw [if_pos h1, min_eq_left h1.le]
  · rw [if_neg (not_lt.mpr h1), min_eq_right h1]

/-- Closed form for the iterated speed ramp from an arbitrary in-range
starting speed. -/
theorem ramp_foldl_closed (dts : List ℚ) :
    ∀ s : RunState, BASE_SPEED ≤ s.speed → s.speed ≤ MAX_SPEED →
      (∀ dt ∈ dts, 0 ≤ dt) →
      (dts.foldl (fun t dt => rampScorePhase dt t) s).speed =
        min MAX_SPEED (s.speed + SPEED_RAMP * dts.sum) := by
  induction dts with
  | nil =>
    intro s _ hle _
    simp only [List.foldl_nil, List.sum_nil, mul_zero, add_zero]
    exact (min_eq_right hle).symm
  | cons dt rest ih =>
    intro s hlo hhi hnn
    have hdt : 0 ≤ dt := hnn dt (List.mem_cons_self dt rest)
    have hrest : ∀ x ∈ rest, 0 ≤ x := fun x hx => hnn x (List.mem_cons_of_mem dt hx)
    have hsum : 0 ≤ rest.sum := List.sum_nonneg hrest
    have hspeed1 : (rampScorePhase dt s).speed =
        min MAX_SPEED (s.speed + SPEED_RAMP * dt) := by
      simp only [rampScorePhase]
      exact clamp_eq_min _ _ _ (by simp only [BASE_SPEED, SPEED_RAMP] at *; linarith)
    have hlo1 : BASE_SPEED ≤ (rampScorePhase dt s).speed := by
      rw [hspeed1]
      simp only [BASE_SPEED, MAX_SPEED, SPEED_RAMP] at *
      rw [le_min_iff]
      constructor <;> linarith
    have hhi1 : (rampScorePhase dt s).speed ≤ MAX_SPEED := by
      rw [hspeed1]; exact min_le_left _ _
    rw [List.foldl_cons, ih (rampScorePhase dt s) hlo1 hhi1 hrest, hspeed1,
      List.sum_cons]
    rcases le_or_lt (s.speed + SPEED_RAMP * dt) MAX_SPEED with h1 | h1
    · rw [min_eq_right h1]
      ring_nf
    · rw [min_eq_left h1.le]
      have h2 : MAX_SPEED ≤ s.speed + SPEED_RAMP * (dt + rest.sum) := by
        simp only [SPEED_RAMP] at *
        nlinarith
      rw [min_eq_left (by simp only [SPEED_RAMP] at *; nlinarith), min_eq_left h2]

/-- C7: starting from `BASE_SPEED`, after any finite sequence of nonnegative
tick deltas summing to `T = dts.sum`, the speed as updated by
`speed = clamp(speed + SPEED_RAMP*dt, BASE_SPEED, MAX_SPEED)` equals
`min MAX_SPEED (BASE_SPEED + SPEED_RAMP * T)`; moreover after every prefix the
speed lies in `[BASE_SPEED, MAX_SPEED]` and it never decreases (every prefix
value is at most the final value). -/
theorem speed_ramp_closed_form (s0 : RunState) (dts : List ℚ)
    (h0 : s0.speed = BASE_SPEED) (hnn : ∀ dt ∈ dts, 0 ≤ dt) :
    (dts.foldl (fun t dt => rampScorePhase dt t) s0).speed =
      min MAX_SPEED (BASE_SPEED + SPEED_RAMP * dts.sum) ∧
    (∀ pre suf : List ℚ, dts = pre ++ suf →
      BASE_SPEED ≤ (pre.foldl (fun t dt => rampScorePhase dt t) s0).speed ∧
      (pre.foldl (fun t dt => rampScorePhase dt t) s0).speed ≤ MAX_SPEED ∧
      (pre.foldl (fun t dt => rampScorePhase dt t) s0).speed ≤
        (dts.foldl (fun t dt => rampScorePhase dt t) s0).speed) := by
  have hbase : BASE_SPEED ≤ s0.speed := le_of_eq h0.symm
  have htop : s0.speed ≤ MAX_SPEED := by
    rw [h0]; simp only [BASE_SPEED, MAX_SPEED]; norm_num
  constructor
  · rw [ramp_foldl_closed dts s0 hbase htop hnn, h0]
  · intro pre suf hsplit
    have hpre : ∀ dt ∈ pre, 0 ≤ dt := by
      intro dt hdt; exact hnn dt (hsplit ▸ List.mem_append_left suf hdt)
    have hsuf : ∀ dt ∈ suf, 0 ≤ dt := by
      intro dt hdt; exact hnn dt (hsplit ▸ List.mem_append_right pre hdt)
    have hpresum : 0 ≤ pre.sum := List.sum_nonneg hpre
    have hsufsum : 0 ≤ suf.sum := List.sum_nonneg hsuf
    have hfpre := ramp_foldl_closed pre s0 hbase htop hpre
    have hfall := ramp_foldl_closed dts s0 hbase htop hnn
    rw [hfpre, hfall, hsplit, List.sum_append, h0]
    simp only [BASE_SPEED, MAX_SPEED, SPEED_RAMP]
    refine ⟨?_, min_le_left _ _, ?_⟩
    · rw [le_min_iff]; constructor <;> nlinarith
    · apply min_le_min (le_refl _); nlinarith

/-- Witness for C7: two ticks of 1/7 s and 2/7 s ramp the speed from 320 to
`min 820 (320 + 7·(3/7)) = 323`. -/
theorem speed_ramp_closed_form_witness :
    (([(1:ℚ)/7, 2/7].foldl (fun t dt => rampScorePhase dt t)
      { cam_x := 0, speed := 320, score := 0, score_f := 0, coins_run := 0,
        player := ⟨160, 402, 44, 58⟩, py := 402, vy := 0, on_ground := true,
        coyote := 0, jump_buf := 0, jump_v := 880, coyote_t := 1/10,
        coin_mul := 1, magnet_px := 0, platforms := [], hazards := [],
        coins_list := [], next_spawn_x := 0, last_platform_top := 436,
        last_hazard_x := -10000000, jump_cut := false,
        jump_time := 0 : RunState }).speed) = 323 := by
  have h := (speed_ramp_closed_form
    { cam_x := 0, speed := 320, score := 0, score_f := 0, coins_run := 0,
      player := ⟨160, 402, 44, 58⟩, py := 402, vy := 0, on_ground := true,
      coyote := 0, jump_buf := 0, jump_v := 880, coyote_t := 1/10,
      coin_mul := 1, magnet_px := 0, platforms := [], hazards := [],
      coins_list := [], next_spawn_x := 0, last_platform_top := 436,
      last_hazard_x := -10000000, jump_cut := false, jump_time := 0 }
    [(1:ℚ)/7, 2/7] rfl
    (by intro dt hdt; simp at hdt; rcases hdt with h | h <;> rw [h] <;> norm_num)).1
  rw [h]
  simp only [List.sum_cons, List.sum_nil, BASE_SPEED, MAX_SPEED, SPEED_RAMP]
  norm_num

/-! ## Jump gating (C3) and jump cut (C9) -/

/-- C3: in a play-mode tick, with `m` the run state at the moment of the jump
check (after the speed/score, buffering, coyote and air-time updates that a
tick performs first), the jump executes iff both `jump_buf > 0` and
`coyote > 0` hold: when both are positive the phase sets `vy = -jump_v`,
leaves the ground, zeroes both counters, clears the jump-cut flag and the air
timer; when either is zero or negative the state passes through unchanged. -/
theorem jump_gate_iff (s : RunState) (dt : ℚ) (inp : Inputs) :
    (let m := jumpTimePhase dt (coyotePhase dt (bufferPhase dt inp (rampScorePhase dt s)))
     ((0 < m.jump_buf ∧ 0 < m.coyote) →
        jumpPhase m = { m with vy := -m.jump_v, on_ground := false, coyote := 0,
                               jump_buf := 0, jump_cut := false, jump_time := 0 }) ∧
     (¬(0 < m.jump_buf ∧ 0 < m.coyote) → jumpPhase m = m)) := by
  intro m
  constructor
  · intro h
    simp only [jumpPhase, if_pos h]
  · intro h
    simp only [jumpPhase, if_neg h]

/-! Field-preservation facts for the tick phases, used to trace values
through a tick. -/

theorem bufferPhase_jump_cut (dt : ℚ) (inp : Inputs) (s : RunState) :
    (bufferPhase dt inp s).jump_cut = s.jump_cut := by
  simp only [bufferPhase]
  split <;> rfl

theorem bufferPhase_on_ground (dt : ℚ) (inp : Inputs) (s : RunState) :
    (bufferPhase dt inp s).on_ground = s.on_ground := by
  simp only [bufferPhase]
  split <;> rfl

theorem coyotePhase_jump_cut_air (dt : ℚ) (s : RunState)
    (h : s.on_ground = false) : (coyotePhase dt s).jump_cut = s.jump_cut := by
  simp only [coyotePhase, h]
  rfl

theorem coyotePhase_on_ground (dt : ℚ) (s : RunState) :
    (coyotePhase dt s).on_ground = s.on_ground := by
  simp only [coyotePhase]
  split <;> rfl

theorem jumpTimePhase_jump_cut (dt : ℚ) (s : RunState) :
    (jumpTimePhase dt s).jump_cut = s.jump_cut := by
  simp only [jumpTimePhase]
  split <;> rfl

/-- C9: the jump-cut reduction is applied at most once per airborne arc.
First conjunct: with the cut flag already set, a further release edge leaves
the state (in particular `vy`) unchanged.  Second conjunct: an airborne,
not-yet-cut, still-rising state is cut exactly once (`vy` scaled by
`JUMP_CUT_MULT`, flag set).  Third conjunct: across the first phases of a tick
that starts airborne with the flag set and does not execute a new jump, the
flag survives to the cut phase, so a release edge delivered on a later tick of
the same arc does not scale `vy` again. -/
theorem jump_cut_once (s : RunState) (dt : ℚ) (inp : Inputs) :
    (∀ m : RunState, ∀ rel : Bool, m.jump_cut = true → cutPhase rel m = m) ∧
    (∀ m : RunState, m.on_ground = false → m.jump_cut = false → m.vy < 0 →
      cutPhase true m = { m with vy := m.vy * JUMP_CUT_MULT, jump_cut := true }) ∧
    (s.on_ground = false → s.jump_cut = true →
      (let m := jumpTimePhase dt (coyotePhase dt (bufferPhase dt inp (rampScorePhase dt s)))
       ¬(0 < m.jump_buf ∧ 0 < m.coyote) →
       cutPhase inp.jumpReleased (gravityPhase dt (jumpPhase m)) =
         gravityPhase dt (jumpPhase m))) := by
  refine ⟨?_, ?_, ?_⟩
  · intro m rel hcut
    simp only [cutPhase]
    rw [if_neg]
    rintro ⟨_, _, hfalse, _⟩
    rw [hcut] at hfalse
    exact absurd hfalse (by decide)
  · intro m hair hcut hvy
    simp only [cutPhase]
    rw [if_pos ⟨by trivial, hair, hcut, hvy⟩]
  · intro hair hcut
    intro m hnojump
    have hog : (rampScorePhase dt s).on_ground = s.on_ground := rfl
    have hjc : (rampScorePhase dt s).jump_cut = s.jump_cut := rfl
    have hm : m.jump_cut = true := by
      show (jumpTimePhase dt (coyotePhase dt (bufferPhase dt inp
        (rampScorePhase dt s)))).jump_cut = true
      rw [jumpTimePhase_jump_cut, coyotePhase_jump_cut_air _ _
        (by rw [bufferPhase_on_ground, hog, hair]),
        bufferPhase_jump_cut, hjc, hcut]
    have hafter : (gravityPhase dt (jumpPhase m)).jump_cut = true := by
      simp only [jumpPhase, if_neg hnojump, gravityPhase]
      exact hm
    simp only [cutPhase]
    rw [if_neg]
    rintro ⟨_, _, hfalse, _⟩
    rw [hafter] at hfalse
    exact absurd hfalse (by decide)

/-- Witness for C3, both gate directions, at the jump-check moment of a
`dt = 0` tick from the fresh run state: with a press buffered and coyote
refreshed the jump fires (`vy = -880`); with `jump_buf = 0` and `coyote > 0`
nothing happens (`vy` stays 0). -/
theorem jump_gate_iff_witness :
    (jumpPhase (jumpTimePhase 0 (coyotePhase 0 (bufferPhase 0
      ⟨true, true, false⟩ (rampScorePhase 0 (newRunState 880 (1/10) 1 0)))))).vy
      = -880 ∧
    (jumpPhase (jumpTimePhase 0 (coyotePhase 0 (bufferPhase 0
      ⟨false, false, false⟩ (rampScorePhase 0 (newRunState 880 (1/10) 1 0)))))).vy
      = 0 := by
  have hm1 : jumpTimePhase 0 (coyotePhase 0 (bufferPhase 0
      ⟨true, true, false⟩ (rampScorePhase 0 (newRunState 880 (1/10) 1 0)))) =
      { newRunState 880 (1/10) 1 0 with jump_buf := 3/25, coyote := 1/10 } := by
    norm_num [jumpTimePhase, coyotePhase, bufferPhase, rampScorePhase,
      newRunState, clamp, BASE_JUMP_BUF, SPEED_RAMP, BASE_SPEED, MAX_SPEED]
  have hm2 : jumpTimePhase 0 (coyotePhase 0 (bufferPhase 0
      ⟨false, false, false⟩ (rampScorePhase 0 (newRunState 880 (1/10) 1 0)))) =
      { newRunState 880 (1/10) 1 0 with jump_buf := 0, coyote := 1/10 } := by
    norm_num [jumpTimePhase, coyotePhase, bufferPhase, rampScorePhase,
      newRunState, clamp, BASE_JUMP_BUF, SPEED_RAMP, BASE_SPEED, MAX_SPEED]
  constructor
  · have h := (jump_gate_iff (newRunState 880 (1/10) 1 0) 0 ⟨true, true, false⟩).1
    rw [hm1] at h
    rw [hm1, h ⟨by norm_num [newRunState], by norm_num [newRunState]⟩]
    norm_num [newRunState]
  · have h := (jump_gate_iff (newRunState 880 (1/10) 1 0) 0 ⟨false, false, false⟩).2
    rw [hm2] at h
    rw [hm2, h (by norm_num [newRunState])]
    norm_num [newRunState]

/-! ## Plumbing: what the later tick phases leave untouched -/

/-- `spawnChunk` and hence the generation loop only write the six generator
fields; everything else in the run state passes through. -/
theorem genLoop_shape (stream : ℕ → ChunkDraws) (camX : ℚ) :
    ∀ (fuel k : ℕ) (s : RunState),
      ∃ pl hz cl nx lt lh, genLoop stream camX fuel k s =
        { s with platforms := pl, hazards := hz, coins_list := cl,
                 next_spawn_x := nx, last_platform_top := lt,
                 last_hazard_x := lh } := by
  intro fuel
  induction fuel with
  | zero =>
    intro k s
    exact ⟨s.platforms, s.hazards, s.coins_list, s.next_spawn_x,
      s.last_platform_top, s.last_hazard_x, rfl⟩
  | succ fuel ih =>
    intro k s
    simp only [genLoop]
    split
    · obtain ⟨pl, hz, cl, nx, lt, lh, hshape⟩ := ih (k + 1) (spawnChunk (stream k) s)
      exact ⟨pl, hz, cl, nx, lt, lh, hshape⟩
    · exact ⟨s.platforms, s.hazards, s.coins_list, s.next_spawn_x,
        s.last_platform_top, s.last_hazard_x, rfl⟩

theorem ensureGenerationAhead_shape (stream : ℕ → ChunkDraws) (s : RunState) :
    ∃ pl hz cl nx lt lh, ensureGenerationAhead stream s =
      { s with platforms := pl, hazards := hz, coins_list := cl,
               next_spawn_x := nx, last_platform_top := lt,
               last_hazard_x := lh } :=
  genLoop_shape stream s.cam_x _ 0 s

theorem magnetPhase_vy (dt : ℚ) (sqrtF : ℚ → ℚ) (s : RunState) :
    (magnetPhase dt sqrtF s).vy = s.vy := by
  simp only [magnetPhase]
  split <;> rfl

theorem magnetPhase_on_ground (dt : ℚ) (sqrtF : ℚ → ℚ) (s : RunState) :
    (magnetPhase dt sqrtF s).on_ground = s.on_ground := by
  simp only [magnetPhase]
  split <;> rfl

theorem magnetPhase_score (dt : ℚ) (sqrtF : ℚ → ℚ) (s : RunState) :
    (magnetPhase dt sqrtF s).score = s.score := by
  simp only [magnetPhase]
  split <;> rfl

/-- `vy` and `on_ground` pass unchanged through the post-move tail of the
tick (camera advance, generation, cleanup, magnet, coin collection). -/
theorem tick_tail_vy_ground (dt : ℚ) (stream : ℕ → ChunkDraws)
    (sqrtF : ℚ → ℚ) (s : RunState) :
    (coinPhase (magnetPhase dt sqrtF (cleanupLists (ensureGenerationAhead
        stream (camPhase dt s))))).vy = s.vy ∧
    (coinPhase (magnetPhase dt sqrtF (cleanupLists (ensureGenerationAhead
        stream (camPhase dt s))))).on_ground = s.on_ground := by
  obtain ⟨pl, hz, cl, nx, lt, lh, hshape⟩ :=
    ensureGenerationAhead_shape stream (camPhase dt s)
  rw [hshape]
  constructor
  · rw [show (coinPhase (magnetPhase dt sqrtF (cleanupLists _))).vy =
      (magnetPhase dt sqrtF (cleanupLists _)).vy from rfl, magnetPhase_vy]
    rfl
  · rw [show (coinPhase (magnetPhase dt sqrtF (cleanupLists _))).on_ground =
      (magnetPhase dt sqrtF (cleanupLists _)).on_ground from rfl,
      magnetPhase_on_ground]
    rfl

/-- The run state carried out of `playUpdate` is exactly the pre-hazard-check
state (the death branch only changes mode and save data). -/
theorem playUpdate_run (dt : ℚ) (inp : Inputs) (stream : ℕ → ChunkDraws)
    (sqrtF : ℚ → ℚ) (g : GameState) :
    (playUpdate dt inp stream sqrtF g).run = preHazardState dt inp stream sqrtF g := by
  show (deathResolve g (preHazardState dt inp stream sqrtF g)).run = _
  generalize preHazardState dt inp stream sqrtF g = r
  simp only [deathResolve]
  split <;> rfl

theorem coyotePhase_jump_buf (dt : ℚ) (s : RunState) :
    (coyotePhase dt s).jump_buf = s.jump_buf := by
  simp only [coyotePhase]
  split <;> rfl

theorem jumpTimePhase_jump_buf (dt : ℚ) (s : RunState) :
    (jumpTimePhase dt s).jump_buf = s.jump_buf := by
  simp only [jumpTimePhase]
  split <;> rfl

theorem jumpTimePhase_coyote (dt : ℚ) (s : RunState) :
    (jumpTimePhase dt s).coyote = s.coyote := by
  simp only [jumpTimePhase]
  split <;> rfl

theorem jumpTimePhase_on_ground (dt : ℚ) (s : RunState) :
    (jumpTimePhase dt s).on_ground = s.on_ground := by
  simp only [jumpTimePhase]
  split <;> rfl

theorem bufferPhase_coyote_t (dt : ℚ) (inp : Inputs) (s : RunState) :
    (bufferPhase dt inp s).coyote_t = s.coyote_t := by
  simp only [bufferPhase]
  split <;> rfl

theorem bufferPhase_jump_v (dt : ℚ) (inp : Inputs) (s : RunState) :
    (bufferPhase dt inp s).jump_v = s.jump_v := by
  simp only [bufferPhase]
  split <;> rfl

theorem coyotePhase_jump_v (dt : ℚ) (s : RunState) :
    (coyotePhase dt s).jump_v = s.jump_v := by
  simp only [coyotePhase]
  split <;> rfl

theorem jumpTimePhase_jump_v (dt : ℚ) (s : RunState) :
    (jumpTimePhase dt s).jump_v = s.jump_v := by
  simp only [jumpTimePhase]
  split <;> rfl

/-- A release-free tick never cuts. -/
theorem cutPhase_no_release (s : RunState) : cutPhase false s = s := by
  simp only [cutPhase]
  rw [if_neg]
  rintro ⟨h1, _⟩
  exact absurd h1 (by decide)

/-- A non-downward displacement can never produce `landed = true`. -/
theorem collideVerticalSweep_landed_nonpos (player : Rect) (pyFloat dy : ℚ)
    (platforms : List Rect) (hdy : dy ≤ 0) :
    (collideVerticalSweep player pyFloat dy platforms).landed = false := by
  by_cases h0 : dy = 0
  · simp [collideVerticalSweep, h0]
  · simp only [collideVerticalSweep, if_neg h0]
    apply sweepLoop_nonpos_landed
    intro hpos
    have hN : (0 : ℚ) < ((⌊|dy| / 6⌋.toNat + 1 : ℕ) : ℚ) := by positivity
    have : 0 < dy := (div_pos_iff_of_pos_right hN).mp hpos
    exact absurd this (not_lt.mpr hdy)

/-- A rising player (`vy < 0`) is neither caught by a platform nor by the
ground clamp: the move phase keeps `vy` and leaves the player airborne. -/
theorem movePhase_rising (dt : ℚ) (s : RunState) (hvy : s.vy < 0)
    (hdt : 0 ≤ dt) :
    (movePhase dt s).vy = s.vy ∧ (movePhase dt s).on_ground = false := by
  have hdy : s.vy * dt ≤ 0 := mul_nonpos_of_nonpos_of_nonneg hvy.le hdt
  have hland := collideVerticalSweep_landed_nonpos
    { s.player with x := ((⌊s.cam_x + 160⌋ : ℤ) : ℚ) } s.py (s.vy * dt)
    s.platforms hdy
  simp only [movePhase]
  split
  · split
    · rename_i hpos
      exact absurd hpos (not_lt.mpr hvy.le)
    · exact ⟨rfl, rfl⟩
  · split
    · rename_i hl
      rw [hland] at hl
      exact absurd hl (by decide)
    · exact ⟨rfl, rfl⟩

/-- C8: a tick with `dt ∈ (0, 0.05]` that delivers a jump-press edge while
grounded (and no release edge) launches the jump and applies gravity in the
same tick: afterwards `vy = -jump_v + GRAVITY·dt` (the launch impulse already
reduced by one tick of gravity — reproduced, not corrected) and
`on_ground = false`.  The bounds `880 ≤ jump_v ≤ 5000` hold for every
upgrade level (`jump_v = 880 + 50·level`) and keep the gravity clamp and the
sweep direction analysis exact. -/
theorem jump_tick_gravity (dt : ℚ) (inp : Inputs) (stream : ℕ → ChunkDraws)
    (sqrtF : ℚ → ℚ) (g : GameState)
    (hdt0 : 0 < dt) (hdt : dt ≤ 1/20)
    (hpress : inp.jumpPressed = true) (hrel : inp.jumpReleased = false)
    (hground : g.run.on_ground = true)
    (hcoy : 0 < g.run.coyote_t)
    (hjv1 : 880 ≤ g.run.jump_v) (hjv2 : g.run.jump_v ≤ 5000) :
    (playUpdate dt inp stream sqrtF g).run.vy = -g.run.jump_v + GRAVITY * dt ∧
    (playUpdate dt inp stream sqrtF g).run.on_ground = false := by
  have hbuf : (bufferPhase dt inp (rampScorePhase dt g.run)).jump_buf
      = BASE_JUMP_BUF := by
    simp [bufferPhase, hpress]
  have hog1 : (bufferPhase dt inp (rampScorePhase dt g.run)).on_ground = true := by
    rw [bufferPhase_on_ground]
    exact hground
  have hmbuf : (jumpTimePhase dt (coyotePhase dt (bufferPhase dt inp
      (rampScorePhase dt g.run)))).jump_buf = BASE_JUMP_BUF := by
    rw [jumpTimePhase_jump_buf, coyotePhase_jump_buf, hbuf]
  have hmcoy : (jumpTimePhase dt (coyotePhase dt (bufferPhase dt inp
      (rampScorePhase dt g.run)))).coyote = g.run.coyote_t := by
    rw [jumpTimePhase_coyote]
    simp only [coyotePhase, hog1, if_true]
    show (bufferPhase dt inp (rampScorePhase dt g.run)).coyote_t = g.run.coyote_t
    rw [bufferPhase_coyote_t]
    rfl
  have hmjv : (jumpTimePhase dt (coyotePhase dt (bufferPhase dt inp
      (rampScorePhase dt g.run)))).jump_v = g.run.jump_v := by
    rw [jumpTimePhase_jump_v, coyotePhase_jump_v, bufferPhase_jump_v]
    rfl
  have hjump : jumpPhase (jumpTimePhase dt (coyotePhase dt (bufferPhase dt inp
      (rampScorePhase dt g.run)))) =
      { jumpTimePhase dt (coyotePhase dt (bufferPhase dt inp
          (rampScorePhase dt g.run))) with
        vy := -(jumpTimePhase dt (coyotePhase dt (bufferPhase dt inp
          (rampScorePhase dt g.run)))).jump_v,
        on_ground := false, coyote := 0, jump_buf := 0, jump_cut := false,
        jump_time := 0 } := by
    simp only [jumpPhase]
    rw [if_pos]
    constructor
    · rw [hmbuf]
      norm_num [BASE_JUMP_BUF]
    · rw [hmcoy]
      exact hcoy
  have hclamp : clamp (-g.run.jump_v + GRAVITY * dt) (-5000) MAX_FALL_V =
      -g.run.jump_v + GRAVITY * dt := by
    simp only [clamp, GRAVITY, MAX_FALL_V]
    rw [if_neg (by linarith), if_neg (by linarith)]
  have hgrav : (gravityPhase dt (jumpPhase (jumpTimePhase dt (coyotePhase dt
      (bufferPhase dt inp (rampScorePhase dt g.run)))))).vy =
      -g.run.jump_v + GRAVITY * dt := by
    rw [hjump]
    show clamp (-(jumpTimePhase dt (coyotePhase dt (bufferPhase dt inp
      (rampScorePhase dt g.run)))).jump_v + GRAVITY * dt) (-5000) MAX_FALL_V = _
    rw [hmjv, hclamp]
  have hgog : (gravityPhase dt (jumpPhase (jumpTimePhase dt (coyotePhase dt
      (bufferPhase dt inp (rampScorePhase dt g.run)))))).on_ground = false := by
    rw [hjump]
    rfl
  have hcuteq : cutPhase inp.jumpReleased (gravityPhase dt (jumpPhase
      (jumpTimePhase dt (coyotePhase dt (bufferPhase dt inp
        (rampScorePhase dt g.run)))))) =
      gravityPhase dt (jumpPhase (jumpTimePhase dt (coyotePhase dt
        (bufferPhase dt inp (rampScorePhase dt g.run))))) := by
    rw [hrel]
    exact cutPhase_no_release _
  have hvyneg : (cutPhase inp.jumpReleased (gravityPhase dt (jumpPhase
      (jumpTimePhase dt (coyotePhase dt (bufferPhase dt inp
        (rampScorePhase dt g.run))))))).vy < 0 := by
    rw [hcuteq, hgrav]
    simp only [GRAVITY]
    linarith
  have hmove := movePhase_rising dt (cutPhase inp.jumpReleased (gravityPhase dt
    (jumpPhase (jumpTimePhase dt (coyotePhase dt (bufferPhase dt inp
      (rampScorePhase dt g.run))))))) hvyneg hdt0.le
  have htail := tick_tail_vy_ground dt stream sqrtF (movePhase dt
    (cutPhase inp.jumpReleased (gravityPhase dt (jumpPhase (jumpTimePhase dt
      (coyotePhase dt (bufferPhase dt inp (rampScorePhase dt g.run))))))))
  constructor
  · rw [playUpdate_run]
    show (coinPhase (magnetPhase dt sqrtF (cleanupLists (ensureGenerationAhead
      stream (camPhase dt (movePhase dt (cutPhase inp.jumpReleased
        (gravityPhase dt (jumpPhase (jumpTimePhase dt (coyotePhase dt
          (bufferPhase dt inp (rampScorePhase dt g.run))))))))))))).vy = _
    rw [htail.1, hmove.1, hcuteq, hgrav]
  · rw [playUpdate_run]
    show (coinPhase (magnetPhase dt sqrtF (cleanupLists (ensureGenerationAhead
      stream (camPhase dt (movePhase dt (cutPhase inp.jumpReleased
        (gravityPhase dt (jumpPhase (jumpTimePhase dt (coyotePhase dt
          (bufferPhase dt inp (rampScorePhase dt g.run))))))))))))).on_ground = _
    rw [htail.2, hmove.2]

/-- Witness for C8: from the fresh run state (player grounded on the starter
platform), a press-only tick of `dt = 1/60` gives
`vy = -880 + 2100/60 = -845` and leaves the ground. -/
theorem jump_tick_gravity_witness :
    (playUpdate (1/60) ⟨true, true, false⟩ (fun _ => ⟨⟨0, by norm_num⟩,
        ⟨0, by norm_num⟩, ⟨0, by norm_num⟩, ⟨0, by norm_num⟩, ⟨0, by norm_num⟩,
        ⟨0, by norm_num⟩, ⟨0, by norm_num⟩, ⟨0, by norm_num⟩, ⟨0, by norm_num⟩,
        ⟨0, by norm_num⟩, ⟨0, by norm_num⟩, ⟨0, by norm_num⟩, fun _ _ => 0⟩)
      (fun _ => 0)
      ⟨Mode.play, false, ⟨0, 0⟩, newRunState 880 (1/10) 1 0⟩).run.vy = -845 ∧
    (playUpdate (1/60) ⟨true, true, false⟩ (fun _ => ⟨⟨0, by norm_num⟩,
        ⟨0, by norm_num⟩, ⟨0, by norm_num⟩, ⟨0, by norm_num⟩, ⟨0, by norm_num⟩,
        ⟨0, by norm_num⟩, ⟨0, by norm_num⟩, ⟨0, by norm_num⟩, ⟨0, by norm_num⟩,
        ⟨0, by norm_num⟩, ⟨0, by norm_num⟩, ⟨0, by norm_num⟩, fun _ _ => 0⟩)
      (fun _ => 0)
      ⟨Mode.play, false, ⟨0, 0⟩, newRunState 880 (1/10) 1 0⟩).run.on_ground
      = false := by
  have h := jump_tick_gravity (1/60) ⟨true, true, false⟩ (fun _ => ⟨⟨0, by norm_num⟩,
      ⟨0, by norm_num⟩, ⟨0, by norm_num⟩, ⟨0, by norm_num⟩, ⟨0, by norm_num⟩,
      ⟨0, by norm_num⟩, ⟨0, by norm_num⟩, ⟨0, by norm_num⟩, ⟨0, by norm_num⟩,
      ⟨0, by norm_num⟩, ⟨0, by norm_num⟩, ⟨0, by norm_num⟩, fun _ _ => 0⟩)
    (fun _ => 0) ⟨Mode.play, false, ⟨0, 0⟩, newRunState 880 (1/10) 1 0⟩
    (by norm_num) (by norm_num) rfl rfl rfl (by norm_num [newRunState])
    (by norm_num [newRunState]) (by norm_num [newRunState])
  constructor
  · rw [h.1]
    norm_num [newRunState, GRAVITY]
  · exact h.2

/-! ## Generator horizon (C4) and hazard separation (C5) -/

/-- The fuel bound `⌈horizon - next_spawn_x⌉⁺` always suffices: every
`spawnChunk` advances the frontier by more than 309 ≥ 1 px, so the loop can
only exit through its guard, with the frontier at or past the horizon. -/
theorem genLoop_horizon (stream : ℕ → ChunkDraws) (camX : ℚ) :
    ∀ (fuel k : ℕ) (s : RunState),
      (⌈camX + WIDTH * (11/5) - s.next_spawn_x⌉).toNat ≤ fuel →
      camX + WIDTH * (11/5) ≤ (genLoop stream camX fuel k s).next_spawn_x := by
  intro fuel
  induction fuel with
  | zero =>
    intro k s hle
    simp only [genLoop]
    have h0 : (⌈camX + WIDTH * (11/5) - s.next_spawn_x⌉ : ℤ) ≤ 0 := by omega
    have h1 : camX + WIDTH * (11/5) - s.next_spawn_x ≤ ((0 : ℤ) : ℚ) :=
      Int.ceil_le.mp h0
    push_cast at h1
    linarith
  | succ fuel ih =>
    intro k s hle
    simp only [genLoop]
    split
    · apply ih
      have hinc := spawnChunk_next_spawn_gt (stream k) s
      have hmono : camX + WIDTH * (11/5) - (spawnChunk (stream k) s).next_spawn_x ≤
          (camX + WIDTH * (11/5) - s.next_spawn_x) - ((309 : ℤ) : ℚ) := by
        push_cast
        linarith
      have hceil : ⌈camX + WIDTH * (11/5) - (spawnChunk (stream k) s).next_spawn_x⌉ ≤
          ⌈camX + WIDTH * (11/5) - s.next_spawn_x⌉ - 309 := by
        calc ⌈camX + WIDTH * (11/5) - (spawnChunk (stream k) s).next_spawn_x⌉
            ≤ ⌈(camX + WIDTH * (11/5) - s.next_spawn_x) - ((309 : ℤ) : ℚ)⌉ :=
              Int.ceil_le_ceil hmono
          _ = ⌈camX + WIDTH * (11/5) - s.next_spawn_x⌉ - 309 := Int.ceil_sub_int _ _
      omega
    · rename_i hguard
      exact not_lt.mp hguard

/-- C4: after `ensureGenerationAhead` the frontier is at least
`cam_x + 2.2 × GAME_W` (and the camera is untouched), and — the argument that
the while-loop reaches its horizon in finitely many iterations — every single
`spawnChunk` call from an integral frontier (the frontier is an integer in
every reachable state) advances `next_spawn_x` by at least
`PLATFORM_MIN_W + MIN_GAP = 310`. -/
theorem generation_horizon (stream : ℕ → ChunkDraws) (s : RunState) :
    s.cam_x + (11/5) * GAME_W ≤ (ensureGenerationAhead stream s).next_spawn_x ∧
    (ensureGenerationAhead stream s).cam_x = s.cam_x ∧
    (∀ (d : ChunkDraws) (t : RunState),
      t.next_spawn_x = ((⌊t.next_spawn_x⌋ : ℤ) : ℚ) →
      t.next_spawn_x + (PLATFORM_MIN_W + MIN_GAP) ≤ (spawnChunk d t).next_spawn_x) := by
  refine ⟨?_, ?_, ?_⟩
  · have h := genLoop_horizon stream s.cam_x
      (⌈s.cam_x + WIDTH * (11/5) - s.next_spawn_x⌉).toNat 0 s (le_refl _)
    calc s.cam_x + (11/5) * GAME_W = s.cam_x + WIDTH * (11/5) := by
          rw [WIDTH]; ring
      _ ≤ _ := h
  · obtain ⟨pl, hz, cl, nx, lt, lh, hshape⟩ := ensureGenerationAhead_shape stream s
    rw [hshape]
  · intro d t hint
    have hw : (160 : ℤ) ≤ randi 160 380 d.wU := randi_ge _ _ _ (by norm_num)
    have hg : (150 : ℤ) ≤ randi 150 340 d.gapU := randi_ge _ _ _ (by norm_num)
    have hw' : (160 : ℚ) ≤ ((randi 160 380 d.wU : ℤ) : ℚ) := by exact_mod_cast hw
    have hg' : (150 : ℚ) ≤ ((randi 150 340 d.gapU : ℤ) : ℚ) := by exact_mod_cast hg
    show t.next_spawn_x + (PLATFORM_MIN_W + MIN_GAP) ≤
      ((⌊t.next_spawn_x⌋ : ℤ) : ℚ) + ((randi 160 380 d.wU : ℤ) : ℚ) +
        ((randi 150 340 d.gapU : ℤ) : ℚ)
    rw [← hint]
    simp only [PLATFORM_MIN_W, MIN_GAP]
    linarith

/-- Witness for C4: from the fresh run state (frontier 2300, camera 0) the
horizon postcondition holds, and a single `spawnChunk` from its integral
frontier advances it by at least 310. -/
theorem generation_horizon_witness :
    ((newRunState 880 (1/10) 1 0).cam_x + (11/5) * GAME_W ≤
      (ensureGenerationAhead (fun _ => ⟨⟨0, by norm_num⟩, ⟨0, by norm_num⟩,
        ⟨0, by norm_num⟩, ⟨0, by norm_num⟩, ⟨0, by norm_num⟩, ⟨0, by norm_num⟩,
        ⟨0, by norm_num⟩, ⟨0, by norm_num⟩, ⟨0, by norm_num⟩, ⟨0, by norm_num⟩,
        ⟨0, by norm_num⟩, ⟨0, by norm_num⟩, fun _ _ => 0⟩)
        (newRunState 880 (1/10) 1 0)).next_spawn_x) ∧
    ((newRunState 880 (1/10) 1 0).next_spawn_x + (PLATFORM_MIN_W + MIN_GAP) ≤
      (spawnChunk ⟨⟨0, by norm_num⟩, ⟨0, by norm_num⟩, ⟨0, by norm_num⟩,
        ⟨0, by norm_num⟩, ⟨0, by norm_num⟩, ⟨0, by norm_num⟩, ⟨0, by norm_num⟩,
        ⟨0, by norm_num⟩, ⟨0, by norm_num⟩, ⟨0, by norm_num⟩, ⟨0, by norm_num⟩,
        ⟨0, by norm_num⟩, fun _ _ => 0⟩
        (newRunState 880 (1/10) 1 0)).next_spawn_x) := by
  constructor
  · exact (generation_horizon (fun _ => ⟨⟨0, by norm_num⟩, ⟨0, by norm_num⟩,
      ⟨0, by norm_num⟩, ⟨0, by norm_num⟩, ⟨0, by norm_num⟩, ⟨0, by norm_num⟩,
      ⟨0, by norm_num⟩, ⟨0, by norm_num⟩, ⟨0, by norm_num⟩, ⟨0, by norm_num⟩,
      ⟨0, by norm_num⟩, ⟨0, by norm_num⟩, fun _ _ => 0⟩)
      (newRunState 880 (1/10) 1 0)).1
  · refine (generation_horizon (fun _ => ⟨⟨0, by norm_num⟩, ⟨0, by norm_num⟩,
      ⟨0, by norm_num⟩, ⟨0, by norm_num⟩, ⟨0, by norm_num⟩, ⟨0, by norm_num⟩,
      ⟨0, by norm_num⟩, ⟨0, by norm_num⟩, ⟨0, by norm_num⟩, ⟨0, by norm_num⟩,
      ⟨0, by norm_num⟩, ⟨0, by norm_num⟩, fun _ _ => 0⟩)
      (newRunState 880 (1/10) 1 0)).2.2 _ _ ?_
    norm_num [newRunState, GROUND_Y, HEIGHT, GAME_H, GROUND_H, WIDTH, GAME_W]

/-- The recorded hazard abscissa (`RUN.last_hazard_x`, written *before* the
platform clamp) moves forward by at least `Math.floor(speed * MIN_HAZARD_SEP_T)`
whenever a hazard spawns. -/
theorem hazardSpawn_sep (camX speed x lastHazardX : ℚ) (platform : Rect)
    (d : ChunkDraws)
    (hspawn : d.hazU.val <
      (if speed > 650 then HAZARD_CHANCE * (39/50) else HAZARD_CHANCE)) :
    lastHazardX + ((⌊speed * MIN_HAZARD_SEP_T⌋ : ℤ) : ℚ) ≤
      (hazardSpawn camX speed x lastHazardX platform d).2 := by
  simp only [hazardSpawn]
  rw [if_pos hspawn]
  show lastHazardX + ((⌊speed * MIN_HAZARD_SEP_T⌋ : ℤ) : ℚ) ≤
    (if max ((⌊camX + WIDTH + 70⌋ : ℤ) : ℚ)
          ((randi ⌊x - ((⌊speed * MAX_REACTION_T⌋ : ℤ) : ℚ)⌋
            ⌊x - ((⌊speed * MIN_REACTION_T⌋ : ℤ) : ℚ)⌋ d.hxU : ℤ) : ℚ) -
          lastHazardX < ((⌊speed * MIN_HAZARD_SEP_T⌋ : ℤ) : ℚ)
      then lastHazardX + ((⌊speed * MIN_HAZARD_SEP_T⌋ : ℤ) : ℚ)
      else max ((⌊camX + WIDTH + 70⌋ : ℤ) : ℚ)
        ((randi ⌊x - ((⌊speed * MAX_REACTION_T⌋ : ℤ) : ℚ)⌋
          ⌊x - ((⌊speed * MIN_REACTION_T⌋ : ℤ) : ℚ)⌋ d.hxU : ℤ) : ℚ))
  split
  · exact le_refl _
  · rename_i h
    push_neg at h
    linarith

/-- C5 (amended): whenever `spawnChunk` places a hazard, the freshly recorded
`last_hazard_x` is at least `Math.floor(speed * MIN_HAZARD_SEP_T)` past the
previously recorded one.  (The separation the generator enforces is between
the *recorded* pre-clamp positions, with a floored threshold; the pushed
hazard may afterwards be pulled back by the clamp into the platform's
horizontal bounds — see the counterexample.) -/
theorem spawnChunk_recorded_sep (d : ChunkDraws) (s : RunState)
    (hspawn : d.hazU.val <
      (if s.speed > 650 then HAZARD_CHANCE * (39/50) else HAZARD_CHANCE)) :
    s.last_hazard_x + ((⌊s.speed * MIN_HAZARD_SEP_T⌋ : ℤ) : ℚ) ≤
      (spawnChunk d s).last_hazard_x :=
  hazardSpawn_sep s.cam_x s.speed s.next_spawn_x s.last_hazard_x _ d hspawn

/-- Witness for the amended C5 at the fresh run state (speed 320, threshold
`⌊320 · 0.7⌋ = 224`). -/
theorem spawnChunk_recorded_sep_witness :
    (newRunState 880 (1/10) 1 0).last_hazard_x +
      ((⌊(newRunState 880 (1/10) 1 0).speed * MIN_HAZARD_SEP_T⌋ : ℤ) : ℚ) ≤
    (spawnChunk ⟨⟨0, by norm_num⟩, ⟨0, by norm_num⟩, ⟨0, by norm_num⟩,
        ⟨0, by norm_num⟩, ⟨0, by norm_num⟩, ⟨0, by norm_num⟩, ⟨0, by norm_num⟩,
        ⟨0, by norm_num⟩, ⟨0, by norm_num⟩, ⟨0, by norm_num⟩, ⟨0, by norm_num⟩,
        ⟨0, by norm_num⟩, fun _ _ => 0⟩
      (newRunState 880 (1/10) 1 0)).last_hazard_x :=
  spawnChunk_recorded_sep _ _
    (by norm_num [newRunState, HAZARD_CHANCE, BASE_SPEED])

/-- C5 counterexample: at speed 320 (threshold `320 × 0.7 = 224` px) with the
previous hazard recorded at `last_hazard_x = 2400` and the next platform at
`x ∈ [2300, 2460]`, the separation bump pushes the raw hazard position to
`2400 + 224 = 2624` and records it — but the subsequent clamp into the
platform's bounds pulls the *pushed* hazard back to `x = 2430`, only 30 px
past the previously recorded position: the final positions do NOT satisfy the
claimed `speed × MIN_HAZARD_SEP_T` separation. -/
theorem hazard_clamp_sep_cex :
    (spawnChunk
        ⟨⟨0, by norm_num⟩, ⟨0, by norm_num⟩, ⟨0, by norm_num⟩, ⟨0, by norm_num⟩,
         ⟨0, by norm_num⟩, ⟨0, by norm_num⟩, ⟨0, by norm_num⟩, ⟨9/10, by norm_num⟩,
         ⟨0, by norm_num⟩, ⟨0, by norm_num⟩, ⟨0, by norm_num⟩, ⟨0, by norm_num⟩,
         fun _ _ => 0⟩
        { newRunState 880 (1/10) 1 0 with
          last_hazard_x := 2400, hazards := [⟨2350, 406, 30, 32⟩] }).hazards =
      [⟨2350, 406, 30, 32⟩, ⟨2430, 406, 30, 32⟩] ∧
    (⟨2430, 406, 30, 32⟩ : Rect).x -
        ({ newRunState 880 (1/10) 1 0 with
           last_hazard_x := 2400,
           hazards := [⟨2350, 406, 30, 32⟩] } : RunState).last_hazard_x <
      ({ newRunState 880 (1/10) 1 0 with
         last_hazard_x := 2400,
         hazards := [⟨2350, 406, 30, 32⟩] } : RunState).speed * MIN_HAZARD_SEP_T := by
  constructor
  · norm_num [spawnChunk, hazardSpawn, coinSpawn, randi, newRunState, clamp,
      HEIGHT_LEVELS, HAZARD_CHANCE, COIN_CHANCE, MIN_REACTION_T, MAX_REACTION_T,
      MIN_HAZARD_SEP_T, WIDTH, GAME_W, GROUND_Y, HEIGHT, GAME_H, GROUND_H,
      BASE_SPEED, max_def, List.getD]
  · norm_num [newRunState, BASE_SPEED, MIN_HAZARD_SEP_T]

/-! ## Hazard death (C6) -/

/-- When the frontier is already at or past the horizon the generation loop
does nothing. -/
theorem ensureGenerationAhead_noop (stream : ℕ → ChunkDraws) (s : RunState)
    (h : s.cam_x + WIDTH * (11/5) ≤ s.next_spawn_x) :
    ensureGenerationAhead stream s = s := by
  simp only [ensureGenerationAhead]
  have h0 : (⌈s.cam_x + WIDTH * (11/5) - s.next_spawn_x⌉).toNat = 0 := by
    rw [Int.toNat_eq_zero]
    apply Int.ceil_le.mpr
    push_cast
    linarith
  rw [h0]
  rfl

/-- C6: in an unpaused play-mode tick whose pre-hazard-check state `r` has the
player overlapping some live hazard, the tick ends the run: the mode becomes
`Dead`, the saved money increases by exactly `⌊coins_run × coin_mul⌋`, the
saved best score becomes `max` of the previous best and the final score, and
the run state itself is carried over unchanged (no partial-damage outcome; the
first overlapping hazard in list order is the one found).  Moreover `Dead` is
terminal for the tick dispatcher: a dead-mode frame changes nothing until an
explicit reset. -/
theorem hazard_death_tick (dt : ℚ) (inp : Inputs) (stream : ℕ → ChunkDraws)
    (sqrtF : ℚ → ℚ) (g : GameState)
    (hmode : g.mode = Mode.play) (hpause : g.paused = false)
    (hhit : ∃ hz ∈ (preHazardState dt inp stream sqrtF g).hazards,
      colliderect (preHazardState dt inp stream sqrtF g).player hz = true) :
    (frameGameStep dt inp stream sqrtF g).mode = Mode.dead ∧
    (frameGameStep dt inp stream sqrtF g).save.money =
      g.save.money + ⌊((preHazardState dt inp stream sqrtF g).coins_run : ℚ) *
        (preHazardState dt inp stream sqrtF g).coin_mul⌋ ∧
    (frameGameStep dt inp stream sqrtF g).save.best_score =
      max g.save.best_score (preHazardState dt inp stream sqrtF g).score ∧
    (frameGameStep dt inp stream sqrtF g).run =
      preHazardState dt inp stream sqrtF g ∧
    (∀ g' : GameState, g'.mode = Mode.dead →
      frameGameStep dt inp stream sqrtF g' = g') := by
  have hstep : frameGameStep dt inp stream sqrtF g =
      deathResolve g (preHazardState dt inp stream sqrtF g) := by
    simp only [frameGameStep, playUpdate]
    rw [if_pos ⟨hmode, hpause⟩]
  have hterm : ∀ g' : GameState, g'.mode = Mode.dead →
      frameGameStep dt inp stream sqrtF g' = g' := by
    intro g' hdead
    simp only [frameGameStep]
    rw [if_neg]
    rintro ⟨h1, _⟩
    rw [hdead] at h1
    exact Mode.noConfusion h1
  obtain ⟨hz, hmem, hcol⟩ := hhit
  cases hfind : (preHazardState dt inp stream sqrtF g).hazards.find?
      (fun hz => colliderect (preHazardState dt inp stream sqrtF g).player hz) with
  | none =>
    exact absurd hcol (List.find?_eq_none.mp hfind hz hmem)
  | some hz0 =>
    have hd : deathResolve g (preHazardState dt inp stream sqrtF g) =
        { mode := Mode.dead, paused := g.paused,
          save := ⟨g.save.money +
              ⌊((preHazardState dt inp stream sqrtF g).coins_run : ℚ) *
                (preHazardState dt inp stream sqrtF g).coin_mul⌋,
            max (max (max g.save.best_score
                (preHazardState dt inp stream sqrtF g).score)
              (preHazardState dt inp stream sqrtF g).score)
              (preHazardState dt inp stream sqrtF g).score⟩,
          run := preHazardState dt inp stream sqrtF g } := by
      simp only [deathResolve, hfind]
    refine ⟨?_, ?_, ?_, ?_, hterm⟩
    · rw [hstep, hd]
    · rw [hstep, hd]
    · rw [hstep, hd]
      show max (max (max g.save.best_score _) _) _ = _
      rw [max_assoc, max_self, max_assoc, max_self]
    · rw [hstep, hd]

/-- Witness for C6: with `dt = 0` every phase of the tick fixes
`deathWitnessRun` (speed already at base, zero velocity, empty coin list,
frontier past the horizon), the player overlaps the spike, and the frame
dies: money `10 + ⌊3 × 1.5⌋ = 14`, best `max 100 0 = 100`. -/
theorem hazard_death_tick_witness :
    (frameGameStep 0 ⟨false, false, false⟩ (fun _ => zeroDraws) (fun _ => 0)
      deathWitnessGame).mode = Mode.dead ∧
    (frameGameStep 0 ⟨false, false, false⟩ (fun _ => zeroDraws) (fun _ => 0)
      deathWitnessGame).save.money = 14 ∧
    (frameGameStep 0 ⟨false, false, false⟩ (fun _ => zeroDraws) (fun _ => 0)
      deathWitnessGame).save.best_score = 100 := by
  have hmid : camPhase 0 (movePhase 0 (cutPhase false (gravityPhase 0
      (jumpPhase (jumpTimePhase 0 (coyotePhase 0 (bufferPhase 0
        ⟨false, false, false⟩ (rampScorePhase 0 deathWitnessRun)))))))) =
      deathWitnessRun := by
    norm_num [camPhase, movePhase, cutPhase, gravityPhase, jumpPhase,
      jumpTimePhase, coyotePhase, bufferPhase, rampScorePhase, clamp,
      collideVerticalSweep, deathWitnessRun, newRunState, BASE_SPEED,
      SPEED_RAMP, MAX_SPEED, GRAVITY, MAX_FALL_V, GROUND_Y, HEIGHT, GAME_H,
      GROUND_H, WIDTH, GAME_W]
  have hens : ensureGenerationAhead (fun _ => zeroDraws) deathWitnessRun =
      deathWitnessRun := by
    apply ensureGenerationAhead_noop
    norm_num [deathWitnessRun, newRunState, WIDTH, GAME_W]
  have hr : preHazardState 0 ⟨false, false, false⟩ (fun _ => zeroDraws)
      (fun _ => 0) deathWitnessGame = deathWitnessRun := by
    show coinPhase (magnetPhase 0 (fun _ => 0) (cleanupLists
      (ensureGenerationAhead (fun _ => zeroDraws) (camPhase 0 (movePhase 0
        (cutPhase false (gravityPhase 0 (jumpPhase (jumpTimePhase 0
          (coyotePhase 0 (bufferPhase 0 ⟨false, false, false⟩
            (rampScorePhase 0 deathWitnessRun)))))))))))) = deathWitnessRun
    rw [hmid, hens]
    norm_num [coinPhase, magnetPhase, cleanupLists, deathWitnessRun,
      newRunState, colliderect, List.filter]
  have h := hazard_death_tick 0 ⟨false, false, false⟩ (fun _ => zeroDraws)
    (fun _ => 0) deathWitnessGame rfl rfl
    ⟨⟨150, 310, 30, 32⟩, by rw [hr]; norm_num [deathWitnessRun, newRunState],
      by rw [hr]; norm_num [deathWitnessRun, newRunState, colliderect]⟩
  refine ⟨h.1, ?_, ?_⟩
  · rw [h.2.1, hr]
    norm_num [deathWitnessRun, newRunState, deathWitnessGame]
  · rw [h.2.2.1, hr]
    norm_num [deathWitnessRun, newRunState, deathWitnessGame]

/-- Witness for C9: an airborne state already cut this arc
(`jump_cut = true`, still rising at `vy = -200`) is left unchanged by a
further release edge. -/
theorem jump_cut_once_witness :
    cutPhase true { newRunState 880 (1/10) 1 0 with
      on_ground := false, jump_cut := true, vy := -200 } =
    { newRunState 880 (1/10) 1 0 with
      on_ground := false, jump_cut := true, vy := -200 } :=
  (jump_cut_once (newRunState 880 (1/10) 1 0) 0
      ⟨false, false, true⟩).1
    { newRunState 880 (1/10) 1 0 with
      on_ground := false, jump_cut := true, vy := -200 } true rfl

end Runner
